import Mathlib

/-!
Verification of the Collab-Mentions synchronization core.

This file gives a shallow embedding, in Lean 4, of the conflict-resolution
and integrity-verification logic of the Collab-Mentions plugin
(`src/chatManager.ts` and `src/userManager.ts`), together with theorems
settling the behavioural claims about that logic.

Modelling conventions:
* ISO-8601 timestamp strings are modelled as natural numbers of
  milliseconds; the source only ever compares them through
  `new Date(x).getTime()`, which this ordering reflects.
* JavaScript `Map` objects are modelled as association lists with
  unique keys.  `Map.set` replaces the entry of an existing key,
  `Map.delete` removes it, lookups return the entry of the key.
* Optional / possibly-`undefined` fields are modelled with `Option`;
  boolean fields whose absence is treated by the source as falsiness
  (`edited`, `deleted`, `isAdmin`) are modelled as `Bool`.
* The lazy expiry that the source performs inside its ledger lookups
  (deleting entries that have outlived their TTL) is observationally
  equivalent, for monotone time, to leaving the stale entry in place and
  reporting it expired; the queries below are therefore written as pure
  functions of the ledger.
-/

/-! ## Basic data model (`src/types.ts`) -/

inductive AdminLevel where
  | primary
  | secondary
deriving DecidableEq, Repr

/-- `VaultUser` from `src/types.ts`.  `registered` is the registration
timestamp in milliseconds. -/
structure VaultUser where
  vaultName : String
  localIdentifier : String
  os : String
  registered : Nat
  registrationNumber : Option Nat
  color : Option String
  isAdmin : Bool
  adminLevel : Option AdminLevel
deriving DecidableEq, Repr

inductive ChannelType where
  | general
  | group
  | dm
deriving DecidableEq, Repr

def GENERAL_CHANNEL_ID : String := "general"

/-- `Channel` from `src/types.ts`. -/
structure Channel where
  id : String
  type : ChannelType
  name : String
  members : List String
  createdBy : String
  createdAt : Nat
deriving DecidableEq, Repr

/-- `ChatImage` from `src/types.ts`. -/
structure ChatImage where
  id : String
  filename : String
  path : String
deriving DecidableEq, Repr

/-- `ChatReaction` from `src/types.ts`: an emoji together with the users
who reacted with it. -/
structure ChatReaction where
  emoji : String
  users : List String
deriving DecidableEq, Repr

/-- `ChatMessage` from `src/types.ts`. -/
structure ChatMessage where
  id : String
  from' : String
  message : String
  timestamp : Nat
  fileLinks : Option (List String)
  mentions : Option (List String)
  channelMentions : Option (List String)
  images : Option (List ChatImage)
  reactions : Option (List ChatReaction)
  edited : Bool
  editedAt : Option Nat
  deleted : Bool
  replyTo : Option String
deriving DecidableEq, Repr

/-- `DeletedChannel` from `src/types.ts`: a tombstone for a deleted channel. -/
structure DeletedChannel where
  id : String
  deletedAt : Nat
  deletedBy : String
deriving DecidableEq, Repr

/-- `ChatDataV2` from `src/types.ts`.  The string-keyed record fields
(`channelMessages`, `readState`, `mutedChannels`) are association lists. -/
structure ChatDataV2 where
  version : Nat
  channels : List Channel
  channelMessages : List (String × List ChatMessage)
  readState : List (String × List (String × Nat))
  mutedChannels : Option (List (String × List String))
  deletedChannels : Option (List DeletedChannel)
  _checksum : Option String
deriving DecidableEq, Repr

/-! ## Association-list helpers for JavaScript `Map`s and record objects

A JavaScript `Map` (and a plain object used as a record) keeps at most
one entry per key.  `mapSet` overwrites the entry of an existing key and
otherwise appends (insertion order), `mapDelete` removes the key's entry
(for a unique-keyed list, removing every match coincides with removing
the one entry), `mapGet?` returns the entry of the key. -/

def mapGet? {β : Type} (l : List (String × β)) (k : String) : Option β :=
  (l.find? (fun p => p.1 == k)).map (fun p => p.2)

def mapSet {β : Type} (l : List (String × β)) (k : String) (v : β) :
    List (String × β) :=
  if l.any (fun p => p.1 == k) then
    l.map (fun p => if p.1 == k then (k, v) else p)
  else
    l ++ [(k, v)]

def mapDelete {β : Type} (l : List (String × β)) (k : String) :
    List (String × β) :=
  l.filter (fun p => ¬ p.1 == k)

/-- Replace the first element satisfying `p` by its image under `f`
(models in-place mutation of the object found by `Array.find` /
`Array.findIndex`). -/
def updateFirst {α : Type} (p : α → Bool) (f : α → α) : List α → List α
  | [] => []
  | x :: xs => if p x then f x :: xs else x :: updateFirst p f xs

/-- Remove the first element satisfying `p` (models `Array.splice` at
the index found by `Array.findIndex`). -/
def removeFirst {α : Type} (p : α → Bool) : List α → List α
  | [] => []
  | x :: xs => if p x then xs else x :: removeFirst p xs

/-! ## The content hash (`computeHash`, `chatManager.ts` lines 49-56)

FNV-1a over the UTF-16 code units of the string, on a 32-bit unsigned
accumulator, rendered as lowercase hexadecimal without padding
(`hash.toString(16)`).  JavaScript's `charCodeAt` yields UTF-16 code
units, so characters beyond the basic multilingual plane contribute a
surrogate pair. -/

/-- UTF-16 code units of one Unicode character (what `charCodeAt`
iterates over). -/
def utf16Units (c : Char) : List Nat :=
  let n := c.toNat
  if n < 65536 then [n]
  else
    let m := n - 65536
    [55296 + m / 1024, 56320 + m % 1024]

/-- One step of FNV-1a: `hash ^= code; hash = (hash * 16777619) >>> 0`. -/
def fnvStep (hash code : Nat) : Nat :=
  ((hash ^^^ code) * 16777619) % 4294967296

/-- The 32-bit FNV-1a accumulator over a string's UTF-16 code units,
starting from the FNV offset basis 2166136261. -/
def fnvAcc (s : String) : Nat :=
  ((s.data.flatMap utf16Units).foldl fnvStep 2166136261)

/-- Lowercase hexadecimal digit. -/
def hexDigitChar (n : Nat) : Char :=
  if n < 10 then Char.ofNat (48 + n) else Char.ofNat (87 + n)

/-- Hex digits of `n`, most significant first, with at most `fuel`
digits (8 suffices for a 32-bit value). -/
def natToHexAux : Nat → Nat → List Char
  | 0, _ => []
  | fuel + 1, n =>
    if n = 0 then [] else natToHexAux fuel (n / 16) ++ [hexDigitChar (n % 16)]

/-- `n.toString(16)` for a 32-bit value: lowercase hex, no padding,
`"0"` for zero. -/
def natToHex (n : Nat) : String :=
  if n = 0 then "0" else String.mk (natToHexAux 8 n)

/-- `computeHash` (`chatManager.ts` lines 49-56, identically
`userManager.ts` lines 34-41). -/
def computeHash (s : String) : String :=
  natToHex (fnvAcc s)

/-! ## JSON serialization of the chat document

`computeDataChecksum` hashes `JSON.stringify(dataWithoutChecksum)`.  We
embed the compact `JSON.stringify` of the `ChatDataV2` shape: fields in
declaration order, `undefined` (`none`) fields omitted, strings escaped,
timestamps rendered as numbers (see the timestamp convention above). -/

def jsonEscapeChar (c : Char) : String :=
  if c = '"' then "\\\""
  else if c = '\\' then "\\\\"
  else if c = '\n' then "\\n"
  else if c = '\r' then "\\r"
  else if c = '\t' then "\\t"
  else if c.toNat < 32 then
    "\\u00" ++ String.mk [hexDigitChar (c.toNat / 16), hexDigitChar (c.toNat % 16)]
  else String.singleton c

def jsonString (s : String) : String :=
  "\"" ++ String.join (s.data.map jsonEscapeChar) ++ "\""

def jsonArray (elems : List String) : String :=
  "[" ++ String.intercalate "," elems ++ "]"

def jsonObject (fields : List (String × String)) : String :=
  "\x7b" ++
    String.intercalate "," (fields.map (fun p => jsonString p.1 ++ ":" ++ p.2)) ++
  "\x7d"

def jsonOptField {α : Type} (name : String) (v : Option α) (enc : α → String) :
    List (String × String) :=
  match v with
  | none => []
  | some a => [(name, enc a)]

def serializeChannelType : ChannelType → String
  | ChannelType.general => jsonString "general"
  | ChannelType.group => jsonString "group"
  | ChannelType.dm => jsonString "dm"

def serializeChannel (c : Channel) : String :=
  jsonObject
    [("id", jsonString c.id), ("type", serializeChannelType c.type),
     ("name", jsonString c.name),
     ("members", jsonArray (c.members.map jsonString)),
     ("createdBy", jsonString c.createdBy),
     ("createdAt", Nat.repr c.createdAt)]

def serializeChatImage (i : ChatImage) : String :=
  jsonObject
    [("id", jsonString i.id), ("filename", jsonString i.filename),
     ("path", jsonString i.path)]

def serializeChatReaction (r : ChatReaction) : String :=
  jsonObject
    [("emoji", jsonString r.emoji),
     ("users", jsonArray (r.users.map jsonString))]

def serializeChatMessage (m : ChatMessage) : String :=
  jsonObject
    ([("id", jsonString m.id), ("from", jsonString m.from'),
      ("message", jsonString m.message), ("timestamp", Nat.repr m.timestamp)]
      ++ jsonOptField "fileLinks" m.fileLinks (fun l => jsonArray (l.map jsonString))
      ++ jsonOptField "mentions" m.mentions (fun l => jsonArray (l.map jsonString))
      ++ jsonOptField "channelMentions" m.channelMentions (fun l => jsonArray (l.map jsonString))
      ++ jsonOptField "images" m.images (fun l => jsonArray (l.map serializeChatImage))
      ++ jsonOptField "reactions" m.reactions (fun l => jsonArray (l.map serializeChatReaction))
      ++ (if m.edited then [("edited", "true")] else [])
      ++ jsonOptField "editedAt" m.editedAt Nat.repr
      ++ (if m.deleted then [("deleted", "true")] else [])
      ++ jsonOptField "replyTo" m.replyTo jsonString)

def serializeDeletedChannel (d : DeletedChannel) : String :=
  jsonObject
    [("id", jsonString d.id), ("deletedAt", Nat.repr d.deletedAt),
     ("deletedBy", jsonString d.deletedBy)]

def serializeRecord {α : Type} (enc : α → String)
    (l : List (String × α)) : String :=
  jsonObject (l.map (fun p => (p.1, enc p.2)))

def serializeChatDataV2 (d : ChatDataV2) : String :=
  jsonObject
    ([("version", Nat.repr d.version),
      ("channels", jsonArray (d.channels.map serializeChannel)),
      ("channelMessages",
        serializeRecord (fun ms => jsonArray (ms.map serializeChatMessage)) d.channelMessages),
      ("readState",
        serializeRecord (serializeRecord Nat.repr) d.readState)]
      ++ jsonOptField "mutedChannels" d.mutedChannels
           (serializeRecord (fun l => jsonArray (l.map jsonString)))
      ++ jsonOptField "deletedChannels" d.deletedChannels
           (fun l => jsonArray (l.map serializeDeletedChannel))
      ++ jsonOptField "_checksum" d._checksum jsonString)

/-! ## Checksums (`chatManager.ts` lines 61-82 and 735-738) -/

/-- `computeDataChecksum`: hash of the serialization of the document
with the `_checksum` field deleted. -/
def computeDataChecksum (d : ChatDataV2) : String :=
  computeHash (serializeChatDataV2 { d with _checksum := none })

/-- `validateDataIntegrity`: a document with no stored checksum (or the
falsy empty string) is accepted; otherwise the stored checksum must
match the recomputed one. -/
def validateDataIntegrity (d : ChatDataV2) : Bool :=
  match d._checksum with
  | none => true
  | some c => if c = "" then true else c = computeDataChecksum d

/-- The checksum stamping performed by `saveChat` (lines 735-738):
delete the old `_checksum`, then store the checksum recomputed over the
remainder. -/
def savedChatData (d : ChatDataV2) : ChatDataV2 :=
  let d0 : ChatDataV2 := { d with _checksum := none }
  { d0 with _checksum := some (computeDataChecksum d0) }

/-- `createEmptyV2Data` (`chatManager.ts` lines 275-294), with creation
time `now`. -/
def createEmptyV2Data (now : Nat) : ChatDataV2 :=
  { version := 2
    channels := [{ id := GENERAL_CHANNEL_ID, type := ChannelType.general,
                   name := "General", members := [], createdBy := "system",
                   createdAt := now }]
    channelMessages := [(GENERAL_CHANNEL_ID, [])]
    readState := [(GENERAL_CHANNEL_ID, [])]
    mutedChannels := none
    deletedChannels := some []
    _checksum := none }

/-! ## Reaction-toggle ledger (`chatManager.ts` lines 1640-1671)

`recentlyToggledReactions` maps a message id to a `Map` from the string
key `` `${emoji}|${username}` `` to `{added, timestamp}`.  We model the
per-message inner map with the key as the `(emoji, username)` pair; the
string key round-trips through `` key.split('|') `` exactly when neither
component contains the separator `'|'`, which holds for every key the
source ever constructs from real emoji and vault names. -/

structure ToggleEntry where
  added : Bool
  timestamp : Nat
deriving DecidableEq, Repr

/-- The reaction-toggle ledger of one message: a `Map` keyed by
`(emoji, username)`. -/
abbrev ToggleLedger := List ((String × String) × ToggleEntry)

def REACTION_TOGGLE_PROTECTION_DURATION : Nat := 60000

/-- `getRecentReactionToggle` (lines 1656-1671): the recorded toggle for
this emoji and user, unless none was recorded or it has outlived the
60-second TTL. -/
def getRecentReactionToggle (toggles : ToggleLedger) (now : Nat)
    (emoji username : String) : Option Bool :=
  match toggles.find? (fun e => e.1 == (emoji, username)) with
  | none => none
  | some e =>
    if now - e.2.timestamp > REACTION_TOGGLE_PROTECTION_DURATION then none
    else some e.2.added

/-- `trackReactionToggle` (lines 1640-1650) on the per-message ledger. -/
def trackReactionToggle (toggles : ToggleLedger) (now : Nat)
    (emoji username : String) (added : Bool) : ToggleLedger :=
  if toggles.any (fun e => e.1 == (emoji, username)) then
    toggles.map (fun e =>
      if e.1 == (emoji, username) then ((emoji, username), ⟨added, now⟩) else e)
  else
    toggles ++ [((emoji, username), ⟨added, now⟩)]

/-! ## The reaction union of `mergeMessageUpdates` (lines 126-204)

The source accumulates an insertion-ordered `Map<emoji, Set<username>>`
(`emojiMap`); we model it as an association list of emoji and
insertion-ordered duplicate-free user lists. -/

/-- `if (!emojiMap.has(emoji)) emojiMap.set(emoji, new Set())`. -/
def emojiMapEnsure (m : List (String × List String)) (e : String) :
    List (String × List String) :=
  if m.any (fun p => p.1 == e) then m else m ++ [(e, [])]

/-- `emojiMap.get(emoji)!.add(user)` (a no-op on a missing key; the
source only calls it on keys it has ensured). -/
def emojiMapAdd (m : List (String × List String)) (e u : String) :
    List (String × List String) :=
  m.map (fun p =>
    if p.1 == e then (p.1, if u ∈ p.2 then p.2 else p.2 ++ [u]) else p)

/-- Lines 130-139: collect all reactions from our message. -/
def mergeOurReactions (m : List (String × List String))
    (rs : List ChatReaction) : List (String × List String) :=
  rs.foldl (fun m r =>
    r.users.foldl (fun m u => emojiMapAdd m r.emoji u) (emojiMapEnsure m r.emoji)) m

/-- Lines 142-158: merge reactions from the disk message, skipping a
(emoji, user) pair the local user toggled off within the TTL. -/
def mergeDiskReactions (toggles : ToggleLedger) (now : Nat)
    (m : List (String × List String)) (rs : List ChatReaction) :
    List (String × List String) :=
  rs.foldl (fun m r =>
    r.users.foldl (fun m u =>
      if getRecentReactionToggle toggles now r.emoji u = some false then m
      else emojiMapAdd m r.emoji u) (emojiMapEnsure m r.emoji)) m

/-- Lines 161-177: force-include pairs the local user toggled on within
the TTL, even if absent from both stored lists. -/
def mergeToggleReactions (toggles : ToggleLedger) (now : Nat)
    (m : List (String × List String)) : List (String × List String) :=
  toggles.foldl (fun m e =>
    if now - e.2.timestamp > REACTION_TOGGLE_PROTECTION_DURATION then m
    else if e.2.added then emojiMapAdd (emojiMapEnsure m e.1.1) e.1.1 e.1.2
    else m) m

/-- Lines 180-187: convert the emoji map back to the array format,
dropping emojis whose user set became empty. -/
def emojiMapToReactions (m : List (String × List String)) : List ChatReaction :=
  (m.filter (fun p => ¬ p.2.isEmpty)).map (fun p => ChatReaction.mk p.1 p.2)

/-- The full merged-reactions computation of `mergeMessageUpdates`. -/
def mergedReactionList (toggles : ToggleLedger) (now : Nat)
    (ourMsg diskMsg : ChatMessage) : List ChatReaction :=
  emojiMapToReactions
    (mergeToggleReactions toggles now
      (mergeDiskReactions toggles now
        (mergeOurReactions [] (ourMsg.reactions.getD []))
        (diskMsg.reactions.getD [])))

/-- `new Date(a) > new Date(b)` on two optional timestamps (both must be
present and the first strictly later). -/
def laterEdit (a b : Option Nat) : Bool :=
  match a, b with
  | some x, some y => y < x
  | _, _ => false

/-- `mergeMessageUpdates` (`chatManager.ts` lines 121-240): merge a disk
copy of a message into our in-memory copy.  `toggles` is the
reaction-toggle ledger of this message id. -/
def mergeMessageUpdates (toggles : ToggleLedger) (now : Nat)
    (ourMsg diskMsg : ChatMessage) : ChatMessage :=
  -- === MERGE REACTIONS === (lines 126-204)
  let merged := mergedReactionList toggles now ourMsg diskMsg
  let newReactions : Option (List ChatReaction) :=
    if diskMsg.reactions.isNone ∧ ¬ (ourMsg.reactions.getD []).isEmpty then
      if diskMsg.deleted ∨ laterEdit diskMsg.editedAt ourMsg.editedAt then
        none
      else if ¬ merged.isEmpty then some merged else none
    else if ¬ merged.isEmpty then some merged else none
  let msg1 := { ourMsg with reactions := newReactions }
  -- === MERGE EDITED STATE === (lines 208-227)
  let msg2 :=
    if diskMsg.edited then
      if ¬ msg1.edited then
        { msg1 with edited := diskMsg.edited, editedAt := diskMsg.editedAt,
                    message := diskMsg.message, mentions := diskMsg.mentions,
                    fileLinks := diskMsg.fileLinks,
                    channelMentions := diskMsg.channelMentions }
      else if laterEdit diskMsg.editedAt msg1.editedAt then
        { msg1 with editedAt := diskMsg.editedAt, message := diskMsg.message,
                    mentions := diskMsg.mentions, fileLinks := diskMsg.fileLinks,
                    channelMentions := diskMsg.channelMentions }
      else msg1
    else msg1
  -- === MERGE DELETED STATE === (lines 231-239)
  if diskMsg.deleted ∧ ¬ msg2.deleted then
    { msg2 with deleted := diskMsg.deleted, message := "", images := none,
                fileLinks := none, mentions := none, channelMentions := none,
                reactions := none }
  else msg2

/-- The soft-delete mutation of `deleteMessage` (`chatManager.ts` lines
1741-1746), applied once the permission checks have passed.  Note that
the source clears the content and derived fields but leaves `reactions`
untouched. -/
def deleteMessageMark (m : ChatMessage) : ChatMessage :=
  { m with deleted := true, message := "", images := none, fileLinks := none,
           mentions := none, channelMentions := none }

/-- The logical (emoji, user) pairs of an optional reaction list. -/
def reactionPairs (rs : Option (List ChatReaction)) : List (String × String) :=
  (rs.getD []).flatMap (fun r => r.users.map (fun u => (r.emoji, u)))

/-! ## Channel-level protection ledgers and state (`chatManager.ts`)

`ChatState` carries the fields of the manager that the channel
operations below read or write: the channel list, the per-channel
message lists, the persisted tombstones, and the in-memory protection
ledgers.  (`readState`, `mutedChannels` and the active-channel id are
not consulted by any of the operations embedded here.) -/

structure ChatState where
  channels : List Channel
  channelMessages : List (String × List ChatMessage)
  deletedChannels : List DeletedChannel
  recentlyLeftChannels : List (String × Nat)
  recentlyAddedMembers : List (String × List (String × Nat))
  recentlyDeletedChannels : List (String × Nat)
deriving DecidableEq, Repr

def LEAVE_PROTECTION_DURATION : Nat := 300000
def ADD_MEMBER_PROTECTION_DURATION : Nat := 300000
def CHANNEL_DELETE_PROTECTION : Nat := 300000
def DELETED_CHANNEL_RETENTION_MS : Nat := 86400000
def MAX_MESSAGES_PER_CHANNEL : Nat := 200

/-- `hasRecentlyLeftChannel` (lines 1217-1227). -/
def hasRecentlyLeftChannel (s : ChatState) (now : Nat) (channelId : String) :
    Bool :=
  match mapGet? s.recentlyLeftChannels channelId with
  | none => false
  | some leftTime => ¬ now - leftTime > LEAVE_PROTECTION_DURATION

/-- `getRecentlyAddedMembers` (lines 1195-1212): the usernames whose
add-protection entry for this channel is still within its TTL. -/
def getRecentlyAddedMembers (s : ChatState) (now : Nat) (channelId : String) :
    List String :=
  match mapGet? s.recentlyAddedMembers channelId with
  | none => []
  | some inner =>
    (inner.filter (fun p => now - p.2 ≤ ADD_MEMBER_PROTECTION_DURATION)).map
      (fun p => p.1)

/-- `trackMemberAdded` (lines 1184-1190). -/
def trackMemberAdded (s : ChatState) (now : Nat)
    (channelId username : String) : ChatState :=
  let inner := (mapGet? s.recentlyAddedMembers channelId).getD []
  { s with recentlyAddedMembers :=
      mapSet s.recentlyAddedMembers channelId (mapSet inner username now) }

/-- `isRecentlyDeletedChannel` (lines 1233-1260): fresh in-memory cache
entry, or else a persisted tombstone within its 24-hour retention. -/
def isRecentlyDeletedChannel (s : ChatState) (now : Nat) (channelId : String) :
    Bool :=
  (match mapGet? s.recentlyDeletedChannels channelId with
   | some deletedTime => now - deletedTime ≤ CHANNEL_DELETE_PROTECTION
   | none => false) ||
  (match s.deletedChannels.find? (fun d => d.id == channelId) with
   | some d => now - d.deletedAt ≤ DELETED_CHANNEL_RETENTION_MS
   | none => false)

/-- A system message, as constructed inline by the channel operations. -/
def mkSystemMessage (sysId text : String) (now : Nat) : ChatMessage :=
  { id := sysId, from' := "system", message := text, timestamp := now,
    fileLinks := none, mentions := none, channelMentions := none,
    images := none, reactions := none, edited := false, editedAt := none,
    deleted := false, replyTo := none }

/-- `this.chatData.channelMessages[channelId].push(msg)` (the source
assumes the channel's entry exists). -/
def pushChannelMessage (cm : List (String × List ChatMessage))
    (channelId : String) (m : ChatMessage) :
    List (String × List ChatMessage) :=
  mapSet cm channelId ((mapGet? cm channelId).getD [] ++ [m])

/-- `deleteChannel` (lines 987-1025): record the deletion in the
in-memory cache and the persisted tombstones, then drop the channel and
its messages. -/
def deleteChannel (s : ChatState) (now : Nat) (deletedBy : String)
    (channelId : String) : ChatState :=
  if channelId = GENERAL_CHANNEL_ID then s
  else
    let s := { s with recentlyDeletedChannels :=
                 mapSet s.recentlyDeletedChannels channelId now }
    let s :=
      if s.deletedChannels.any (fun d => d.id == channelId) then s
      else { s with deletedChannels :=
               s.deletedChannels ++ [⟨channelId, now, deletedBy⟩] }
    { s with channels := s.channels.filter (fun ch => ¬ ch.id == channelId),
             channelMessages := mapDelete s.channelMessages channelId }

/-- `leaveChannel` (lines 932-982).  `currentUserName` is the local
user's vault name (used as `deletedBy` should the channel empty out),
`username` the member who leaves, `sysId` the generated id of the system
message. -/
def leaveChannel (s : ChatState) (now : Nat)
    (currentUserName : Option String) (channelId username sysId : String) :
    ChatState :=
  match s.channels.find? (fun ch => ch.id == channelId) with
  | none => s
  | some ch =>
    if ch.type = ChannelType.general then s
    else
      let s := { s with channels :=
                   (updateFirst (fun c => c.id == channelId)
                     (fun c => { c with members := c.members.filter (fun m => ¬ m == username) })
                     s.channels) }
      let s := { s with recentlyLeftChannels :=
                   mapSet s.recentlyLeftChannels channelId now }
      let s :=
        match mapGet? s.recentlyAddedMembers channelId with
        | none => s
        | some inner =>
          { s with recentlyAddedMembers :=
              mapSet s.recentlyAddedMembers channelId (mapDelete inner username) }
      if ch.members.filter (fun m => ¬ m == username) = [] then
        deleteChannel s now (currentUserName.getD "unknown") channelId
      else
        { s with channelMessages :=
            (pushChannelMessage s.channelMessages channelId
              (mkSystemMessage sysId (username ++ " left the conversation") now)) }

/-- The in-place mutation `addMemberToChannel` applies to the channel
object (lines 895-901): promote a `dm` to a `group` (with the default
comma-joined name), then push the new member. -/
def promoteAndAdd (newMember : String) (c : Channel) : Channel :=
  let c :=
    if c.type = ChannelType.dm then
      { c with type := ChannelType.group,
               name := String.intercalate ", " c.members }
    else c
  { c with members := c.members ++ [newMember] }

/-- `addMemberToChannel` (lines 882-917): a `dm` acquires a third member
by being promoted in place to a `group`; an explicit self re-add clears
the leave protection. -/
def addMemberToChannel (s : ChatState) (now : Nat)
    (currentUserName : Option String)
    (channelId newMember addedBy sysId : String) : ChatState :=
  match s.channels.find? (fun ch => ch.id == channelId) with
  | none => s
  | some ch =>
    if ch.type = ChannelType.general then s
    else if newMember ∈ ch.members then s
    else
      let s :=
        if currentUserName = some newMember then
          { s with recentlyLeftChannels :=
              mapDelete s.recentlyLeftChannels channelId }
        else s
      let s := { s with channels :=
                   (updateFirst (fun c => c.id == channelId)
                     (promoteAndAdd newMember) s.channels) }
      let s := trackMemberAdded s now channelId newMember
      { s with channelMessages :=
          (pushChannelMessage s.channelMessages channelId
            (mkSystemMessage sysId
              (addedBy ++ " added " ++ newMember ++ " to the conversation") now)) }

/-- `String.prototype.trim`, character by character. -/
def trimString (s : String) : String :=
  String.mk
    (((s.data.dropWhile (fun c => c.isWhitespace)).reverse.dropWhile
      (fun c => c.isWhitespace)).reverse)

/-- `renameChannel` (lines 1385-1393): groups only. -/
def renameChannel (s : ChatState) (channelId newName : String) : ChatState :=
  match s.channels.find? (fun ch => ch.id == channelId) with
  | none => s
  | some ch =>
    if ch.type ≠ ChannelType.group then s
    else
      { s with channels :=
          (updateFirst (fun c => c.id == channelId)
            (fun c => { c with name := trimString newName }) s.channels) }

/-- The member-list computation shared by both branches of the channel
merge in `loadChat` (lines 470-487 for a channel not yet known locally,
lines 496-518 for an existing one): start from the disk members, drop
the local user if they recently left, then re-insert members the local
user recently added. -/
def mergeMembersFromDisk (s : ChatState) (now : Nat)
    (currentUserName : Option String) (diskChannel : Channel) : List String :=
  let members :=
    match currentUserName with
    | some u =>
      if hasRecentlyLeftChannel s now diskChannel.id then
        diskChannel.members.filter (fun m => ¬ m == u)
      else diskChannel.members
    | none => diskChannel.members
  (getRecentlyAddedMembers s now diskChannel.id).foldl
    (fun ms m => if m ∈ ms then ms else ms ++ [m]) members

/-- The in-place mutation the channel merge applies to an existing
channel (lines 496-523): adopt the protected disk member list and a disk
rename of a group. -/
def adoptDiskMembers (s : ChatState) (now : Nat) (currentUserName : Option String)
    (diskChannel : Channel) (ch : Channel) : Channel :=
  let ch := { ch with
    members := mergeMembersFromDisk s now currentUserName diskChannel }
  if ¬ diskChannel.name == ch.name ∧ diskChannel.type = ChannelType.group then
    { ch with name := diskChannel.name }
  else ch

/-- The per-disk-channel merge of `loadChat` (lines 459-524): skip
recently deleted channels; adopt unknown channels (with the member-list
protections applied); for known channels take the disk members as the
base (with the same protections) and adopt a disk rename of a group. -/
def mergeDiskChannel (s : ChatState) (now : Nat)
    (currentUserName : Option String) (diskChannel : Channel) : ChatState :=
  if isRecentlyDeletedChannel s now diskChannel.id then s
  else
    match s.channels.find? (fun ch => ch.id == diskChannel.id) with
    | none =>
      { s with channels :=
          s.channels ++
            [{ diskChannel with
                 members := mergeMembersFromDisk s now currentUserName diskChannel }] }
    | some _ =>
      { s with channels :=
          (updateFirst (fun ch => ch.id == diskChannel.id)
            (adoptDiskMembers s now currentUserName diskChannel)
            s.channels) }

/-- The last-activity time used by `cleanupStaleChannels` (lines
1300-1305): the timestamp of the channel's last message, or its
creation time. -/
def lastActivityOf (s : ChatState) (ch : Channel) : Nat :=
  match ((mapGet? s.channelMessages ch.id).getD []).getLast? with
  | some m => m.timestamp
  | none => ch.createdAt

/-- `cleanupStaleChannels` (lines 1289-1330): remove `dm` channels that
are down to one member with no activity in seven days. -/
def cleanupStaleChannels (s : ChatState) (now : Nat) : ChatState :=
  let removeIds :=
    (s.channels.filter (fun ch =>
      ¬ ch.id == GENERAL_CHANNEL_ID ∧ ch.type = ChannelType.dm ∧
        ch.members.length = 1 ∧ now - lastActivityOf s ch > 604800000)).map
      (fun ch => ch.id)
  { s with channels := s.channels.filter (fun ch => ¬ removeIds.contains ch.id),
           channelMessages :=
             s.channelMessages.filter (fun p => ¬ removeIds.contains p.1) }

/-- The channel-affecting operations of the manager. -/
inductive ChatOp where
  | addMember (now : Nat) (currentUserName : Option String)
      (channelId newMember addedBy sysId : String)
  | leave (now : Nat) (currentUserName : Option String)
      (channelId username sysId : String)
  | rename (channelId newName : String)
  | mergeDisk (now : Nat) (currentUserName : Option String) (diskChannel : Channel)
  | cleanup (now : Nat)

def applyChatOp (s : ChatState) : ChatOp → ChatState
  | ChatOp.addMember now cu cid m by' sysId => addMemberToChannel s now cu cid m by' sysId
  | ChatOp.leave now cu cid u sysId => leaveChannel s now cu cid u sysId
  | ChatOp.rename cid n => renameChannel s cid n
  | ChatOp.mergeDisk now cu dch => mergeDiskChannel s now cu dch
  | ChatOp.cleanup now => cleanupStaleChannels s now

/-! ## Message-list merging (`loadChat` lines 536-558, `saveChat` lines
650-671) -/

/-- Stable insertion of `x` after every element whose key is not
greater; `stableSortBy` is then the stable ascending sort that
JavaScript's `Array.prototype.sort` performs with the numeric comparator
`(a, b) => key(a) - key(b)`. -/
def insertSortedBy {α : Type} (key : α → Nat) (x : α) : List α → List α
  | [] => [x]
  | y :: ys =>
    if key y ≤ key x then y :: insertSortedBy key x ys else x :: y :: ys

def stableSortBy {α : Type} (key : α → Nat) (l : List α) : List α :=
  l.foldl (fun acc x => insertSortedBy key x acc) []

def DISMISS_PROTECTION_DURATION : Nat := 60000

/-- `isRecentlyDismissed` (lines 98-108) over the dismissal ledger. -/
def isRecentlyDismissed (dismissed : List (String × Nat)) (now : Nat)
    (messageId : String) : Bool :=
  match mapGet? dismissed messageId with
  | none => false
  | some dismissedTime => ¬ now - dismissedTime > DISMISS_PROTECTION_DURATION

/-- The per-channel message merge of `loadChat` (lines 536-558): walk
the disk messages, skip recently dismissed ones, append unknown ids,
merge known ids with `mergeMessageUpdates`, and finally re-sort by
timestamp.  `toggles` maps a message id to its reaction-toggle ledger.
(The id lookup map is built from the pre-merge list, as in the source.) -/
def mergeChannelMessages (toggles : List (String × ToggleLedger))
    (dismissed : List (String × Nat)) (now : Nat)
    (ours disk : List ChatMessage) : List ChatMessage :=
  let merged := disk.foldl (fun acc diskMsg =>
    if isRecentlyDismissed dismissed now diskMsg.id then acc
    else
      match ours.find? (fun m => m.id == diskMsg.id) with
      | none => acc ++ [diskMsg]
      | some _ =>
        updateFirst (fun m => m.id == diskMsg.id)
          (fun ourMsg =>
            mergeMessageUpdates ((mapGet? toggles diskMsg.id).getD []) now
              ourMsg diskMsg)
          acc) ours
  stableSortBy (fun m => m.timestamp) merged

/-- The per-channel message merge of `saveChat` (lines 650-671):
identical, except that save-side merging has no dismissal filter. -/
def saveMergeChannelMessages (toggles : List (String × ToggleLedger))
    (now : Nat) (ours disk : List ChatMessage) : List ChatMessage :=
  let merged := disk.foldl (fun acc diskMsg =>
    match ours.find? (fun m => m.id == diskMsg.id) with
    | none => acc ++ [diskMsg]
    | some _ =>
      updateFirst (fun m => m.id == diskMsg.id)
        (fun ourMsg =>
          mergeMessageUpdates ((mapGet? toggles diskMsg.id).getD []) now
            ourMsg diskMsg)
        acc) ours
  stableSortBy (fun m => m.timestamp) merged

/-- The append-and-cap step of `sendMessage` (lines 1509-1515): push the
new message, then keep only the last `MAX_MESSAGES_PER_CHANNEL`
(`msgs.slice(-200)`). -/
def sendMessagePush (msgs : List ChatMessage) (m : ChatMessage) :
    List ChatMessage :=
  let msgs := msgs ++ [m]
  if msgs.length > MAX_MESSAGES_PER_CHANNEL then
    msgs.drop (msgs.length - MAX_MESSAGES_PER_CHANNEL)
  else msgs

/-! ## User registration and the primary-admin repair passes
(`src/userManager.ts`) -/

def USER_DELETE_PROTECTION : Nat := 300000

/-- `isRecentlyDeletedUser` (lines 131-141) over the deleted-user
ledger. -/
def isRecentlyDeletedUser (led : List (String × Nat)) (now : Nat)
    (localIdentifier : String) : Bool :=
  match mapGet? led localIdentifier with
  | none => false
  | some deletedTime => ¬ now - deletedTime > USER_DELETE_PROTECTION

/-- Stable ascending sort by registration date, as performed by
`sort((a, b) => new Date(a.registered) - new Date(b.registered))`. -/
def sortByRegistered (l : List VaultUser) : List VaultUser :=
  stableSortBy (fun u => u.registered) l

/-- `users.forEach((user, index) => user.registrationNumber = index + 1)`
(lines 583-585), starting from `n`. -/
def assignRegNums : Nat → List VaultUser → List VaultUser
  | _, [] => []
  | n, u :: us =>
    { u with registrationNumber := some n } :: assignRegNums (n + 1) us

/-- The primary-admin repair of the `saveUsers` merge (lines 587-599):
the user with registration number 1 becomes the primary admin; any other
primary is demoted to secondary. -/
def adminRepairFun (u : VaultUser) : VaultUser :=
  if u.registrationNumber = some 1 then
    { u with isAdmin := true, adminLevel := some AdminLevel.primary }
  else if u.adminLevel = some AdminLevel.primary then
    { u with adminLevel := some AdminLevel.secondary }
  else u

/-- The in-memory merge-and-repair portion of `saveUsers` (lines
562-599): adopt unknown disk users (unless recently deleted locally),
re-sort by registration date, re-number, and make the user numbered 1
the unique primary admin, demoting any other primary to secondary. -/
def saveUsersMergeRepair (ours disk : List VaultUser)
    (deletedLed : List (String × Nat)) (now : Nat) : List VaultUser :=
  let merged := ours ++ disk.filter (fun d =>
    ¬ ours.any (fun o => o.localIdentifier == d.localIdentifier) ∧
    ¬ isRecentlyDeletedUser deletedLed now d.localIdentifier)
  let numbered := assignRegNums 1 (sortByRegistered merged)
  numbered.map adminRepairFun

/-- Step 1 of `ensureAdminExists` (lines 484-500): when some user lacks
a registration number (`!u.registrationNumber`, i.e. absent or the falsy
0), walk the users in registration-date order and fill in missing
numbers positionally. -/
def ensureAdminStep1 (users : List VaultUser) : List VaultUser :=
  if users.any (fun u => u.registrationNumber.getD 0 = 0) then
    (sortByRegistered users).enum.foldl (fun us iu =>
      updateFirst (fun u => u.vaultName == iu.2.vaultName)
        (fun u =>
          if u.registrationNumber.getD 0 = 0 then
            { u with registrationNumber := some (iu.1 + 1) }
          else u)
        us) users
  else users

/-- Step 2a of `ensureAdminExists` (lines 503-515): when the number of
primary admins is off, demote every primary that is not registration
number 1 to secondary. -/
def ensureAdminStep2 (users : List VaultUser) : List VaultUser :=
  if (users.filter
      (fun u => u.adminLevel = some AdminLevel.primary)).length ≠ 1 then
    users.map (fun u =>
      if u.adminLevel = some AdminLevel.primary ∧
          u.registrationNumber ≠ some 1 then
        { u with adminLevel := some AdminLevel.secondary }
      else u)
  else users

/-- Step 2b of `ensureAdminExists` (lines 518-526): make the user with
registration number 1 the primary admin. -/
def ensureAdminStep3 (users : List VaultUser) : List VaultUser :=
  updateFirst (fun u => u.registrationNumber == some 1)
    (fun u =>
      if ¬ u.isAdmin ∨ u.adminLevel ≠ some AdminLevel.primary then
        { u with isAdmin := true, adminLevel := some AdminLevel.primary }
      else u)
    users

/-- Step 3 of `ensureAdminExists` (lines 530-536): an admin with no
admin level that is not registration number 1 becomes secondary. -/
def secondaryFillFun (u : VaultUser) : VaultUser :=
  if u.isAdmin ∧ u.adminLevel = none ∧ u.registrationNumber ≠ some 1 then
    { u with adminLevel := some AdminLevel.secondary }
  else u

/-- `ensureAdminExists` (lines 478-549), the repair pass run on every
`loadUsers`, assembled from its steps; it returns immediately on an
empty users list. -/
def ensureAdminPure (users : List VaultUser) : List VaultUser :=
  if users = [] then users
  else
    ((ensureAdminStep3 (ensureAdminStep2 (ensureAdminStep1 users))).map
      secondaryFillFun)

/-- `toLowerCase`, character by character (the case-insensitive name
comparisons of `userManager.ts`). -/
def lowerString (s : String) : String :=
  String.mk (s.data.map Char.toLower)

/-- The color palette of `registerUser` (line 710). -/
def registrationColors : List String :=
  ["#7c3aed", "#2563eb", "#059669", "#d97706", "#dc2626", "#7c2d12",
   "#4f46e5", "#0891b2"]

/-- The in-memory registration of `registerUser` (lines 689-733): reject
a duplicate machine or (case-insensitive) duplicate name, otherwise
append the new user with the next registration number; the first user
becomes the primary admin. -/
def registerPure (users : List VaultUser) (vaultName localId os' : String)
    (now : Nat) : List VaultUser :=
  if users.any (fun u => u.localIdentifier == localId) then users
  else if users.any (fun u => lowerString u.vaultName == lowerString vaultName) then
    users
  else
    let color := registrationColors.get!
      (users.length % registrationColors.length)
    let maxRegNum := users.foldl
      (fun mx u => max mx (u.registrationNumber.getD 0)) 0
    let registrationNumber := maxRegNum + 1
    let isFirstUser := registrationNumber = 1
    users ++ [{ vaultName := vaultName, localIdentifier := localId, os := os',
                registered := now,
                registrationNumber := some registrationNumber,
                color := some color, isAdmin := isFirstUser,
                adminLevel := if isFirstUser then some AdminLevel.primary
                              else none }]

/-- The in-memory removal of `unregisterCurrentUser` (lines 775-817):
splice out the machine's user and, when the primary admin leaves,
promote the remaining user with the lowest registration number. -/
def unregisterPure (users : List VaultUser) (localId : String) :
    List VaultUser :=
  match users.find? (fun u => u.localIdentifier == localId) with
  | none => users
  | some cu =>
    let rest := removeFirst (fun u => u.localIdentifier == localId) users
    if cu.adminLevel = some AdminLevel.primary ∧ rest.length > 0 then
      match stableSortBy (fun u => u.registrationNumber.getD 999) rest with
      | [] => rest
      | np :: _ =>
        updateFirst (fun u => u.vaultName == np.vaultName)
          (fun u => { u with isAdmin := true,
                             adminLevel := some AdminLevel.primary })
          rest
    else rest

/-- One completed register/unregister operation.  Each such operation
ends with `saveUsers` (whose read-merge-repair runs against whatever the
shared file then holds) followed by the reload's `ensureAdminExists`
pass, so the post-state is `ensureAdminPure` of `saveUsersMergeRepair`
of the in-memory mutation. -/
structure UserStep where
  isRegister : Bool
  vaultName : String
  localId : String
  os : String
  disk : List VaultUser
  deletedLed : List (String × Nat)
  now : Nat

def applyUserStep (users : List VaultUser) (st : UserStep) :
    List VaultUser :=
  let mutated :=
    if st.isRegister then registerPure users st.vaultName st.localId st.os st.now
    else unregisterPure users st.localId
  ensureAdminPure (saveUsersMergeRepair mutated st.disk st.deletedLed st.now)

/-- A whole history of register/unregister operations, starting from the
empty users file created on first access. -/
def runUserOps (steps : List UserStep) : List VaultUser :=
  steps.foldl applyUserStep []

/-- The single-primary-admin invariant: exactly one user carries
`adminLevel = primary`, and that user's registration number is strictly
below every other user's. -/
def adminInvariant (l : List VaultUser) : Prop :=
  (l.filter (fun u => u.adminLevel = some AdminLevel.primary)).length = 1 ∧
  ∀ p ∈ l, p.adminLevel = some AdminLevel.primary →
    ∀ u ∈ l, u.adminLevel ≠ some AdminLevel.primary →
      ∀ pn un, p.registrationNumber = some pn →
        u.registrationNumber = some un → pn < un

/-! ## The registration lock (`userManager.ts` lines 104-126) -/

/-- The observable states of the shared lock file: absent, present but
unparseable, or recording a holder and timestamp. -/
inductive LockFileState where
  | absent
  | invalid
  | lock (holder : String) (timestamp : Nat)
deriving DecidableEq, Repr

/-- `releaseLock` (lines 104-126): remove the lock file only if we are
still its recorded holder; an unparseable lock file is removed. -/
def releaseLock (localId : String) : LockFileState → LockFileState
  | LockFileState.absent => LockFileState.absent
  | LockFileState.invalid => LockFileState.absent
  | LockFileState.lock h t =>
    if h = localId then LockFileState.absent else LockFileState.lock h t



/-! ## Derived views of the reaction structures (used in the statements
of the reaction-merge theorems) -/

/-- The keys (emojis) of the emoji map. -/
def emojiMapKeys (m : List (String × List String)) : List String :=
  m.map (fun p => p.1)

/-- A pair (emoji, user) is recorded in the emoji map. -/
def hasPair (m : List (String × List String)) (a b : String) : Prop :=
  ∃ p ∈ m, p.1 = a ∧ b ∈ p.2

/-- The (emoji, user) pairs of a plain reaction list. -/
def reactionListPairs (rs : List ChatReaction) : List (String × String) :=
  rs.flatMap (fun r => r.users.map (fun u => (r.emoji, u)))

/-- The shape of a repaired users list whose numbering starts at `n`:
positions carry consecutive registration numbers, the number-1 user is
the unique primary admin and is an admin. -/
def shapeFrom : Nat → List VaultUser → Prop
  | _, [] => True
  | n, u :: us =>
    u.registrationNumber = some n ∧
    (u.adminLevel = some AdminLevel.primary ↔ n = 1) ∧
    (n = 1 → u.isAdmin = true) ∧ shapeFrom (n + 1) us

/-! ## Concrete instances used by counterexamples and witnesses -/

/-- A concrete deleted in-memory message: a message that carried a
reaction and was then soft-deleted by `deleteMessage` (which clears the
content fields but not `reactions`). -/
def deletedMsgEx : ChatMessage :=
  deleteMessageMark
    { id := "m1", from' := "alice", message := "hi", timestamp := 0,
      fileLinks := none, mentions := none, channelMentions := none,
      images := none, reactions := some [⟨"👍", ["bob"]⟩], edited := false,
      editedAt := none, deleted := false, replyTo := none }

/-- A concrete non-deleted disk copy of the same message with an empty
reaction list. -/
def diskMsgEx : ChatMessage :=
  { id := "m1", from' := "alice", message := "hi", timestamp := 0,
    fileLinks := none, mentions := none, channelMentions := none,
    images := none, reactions := some [], edited := false, editedAt := none,
    deleted := false, replyTo := none }

/-- 200 distinct messages already in memory. -/
def capMsgEx (n : Nat) : ChatMessage :=
  { id := Nat.repr n, from' := "alice", message := "m", timestamp := 0,
    fileLinks := none, mentions := none, channelMentions := none,
    images := none, reactions := none, edited := false, editedAt := none,
    deleted := false, replyTo := none }

def capOursEx : List ChatMessage := (List.range 200).map capMsgEx

def capDiskEx : List ChatMessage := [capMsgEx 1000]

/-- In-memory message still carrying the reaction pair (👍, bob). -/
def ourReactEx : ChatMessage :=
  { id := "m1", from' := "alice", message := "hi", timestamp := 0,
    fileLinks := none, mentions := none, channelMentions := none,
    images := none, reactions := some [⟨"👍", ["bob"]⟩], edited := false,
    editedAt := none, deleted := false, replyTo := none }

/-- Disk copy of the same message, also carrying (👍, bob). -/
def diskReactEx : ChatMessage :=
  { id := "m1", from' := "alice", message := "hi", timestamp := 0,
    fileLinks := none, mentions := none, channelMentions := none,
    images := none, reactions := some [⟨"👍", ["bob"]⟩], edited := false,
    editedAt := none, deleted := false, replyTo := none }

/-- A toggle ledger recording that the local user toggled (👍, bob) OFF
at time 0. -/
def togOffLedEx : ToggleLedger := [(("👍", "bob"), ⟨false, 0⟩)]

/-- A toggle ledger recording that the local user toggled (🎉, carol) ON
at time 0. -/
def togOnLedEx : ToggleLedger := [(("🎉", "carol"), ⟨true, 0⟩)]

/-- In-memory message with no reactions. -/
def ourNoReactEx : ChatMessage :=
  { id := "m2", from' := "alice", message := "hi", timestamp := 0,
    fileLinks := none, mentions := none, channelMentions := none,
    images := none, reactions := none, edited := false, editedAt := none,
    deleted := false, replyTo := none }

/-- Disk copy of the same message with an empty reaction list. -/
def diskNoReactEx : ChatMessage :=
  { id := "m2", from' := "alice", message := "hi", timestamp := 0,
    fileLinks := none, mentions := none, channelMentions := none,
    images := none, reactions := some [], edited := false, editedAt := none,
    deleted := false, replyTo := none }

def generalChannelEx : Channel :=
  ⟨"general", ChannelType.general, "General", [], "system", 0⟩

def groupChannelEx : Channel :=
  ⟨"c1", ChannelType.group, "plans", ["u", "v"], "v", 0⟩

def chatStateEx : ChatState :=
  ⟨[generalChannelEx, groupChannelEx], [("general", []), ("c1", [])], [], [], [], []⟩

def diskChannelEx : Channel :=
  ⟨"c1", ChannelType.group, "plans", ["u", "v"], "v", 0⟩

def mergedChannelEx : Channel :=
  ⟨"c1", ChannelType.group, "plans", ["v"], "v", 0⟩

def dmChannelEx : Channel :=
  ⟨"d1", ChannelType.dm, "", ["a", "b"], "a", 0⟩

def dmStateEx : ChatState :=
  ⟨[generalChannelEx, dmChannelEx], [("general", []), ("d1", [])], [], [], [], []⟩

/-! # Theorems -/

/-! ## C4: checksum round-trip -/

/-- **C4.** The checksum stored by `saveChat` is computed over the
serialization with the `_checksum` field removed — the checksum of a
document is invariant under changes to its own `_checksum` field — and
consequently a document stamped by `saveChat`, reloaded unaltered,
always passes `validateDataIntegrity`. -/
theorem checksum_roundtrip :
    (∀ (d : ChatDataV2) (c : Option String),
      computeDataChecksum { d with _checksum := c } = computeDataChecksum d) ∧
    (∀ d : ChatDataV2, validateDataIntegrity (savedChatData d) = true) := by
  constructor
  · intro d c
    rfl
  · intro d
    show validateDataIntegrity
      { d with _checksum := some (computeDataChecksum { d with _checksum := none }) } = true
    simp only [validateDataIntegrity]
    have : computeDataChecksum
        { d with _checksum := some (computeDataChecksum { d with _checksum := none }) } =
        computeDataChecksum { d with _checksum := none } := rfl
    rw [this]
    split <;> simp

/-! ## C8: lock release safety -/

/-- **C8.** `releaseLock` removes the lock file only when its recorded
holder is the caller's local identifier: a parseable lock file recording
any other holder is left in place. -/
theorem releaseLock_keeps_other_holder (localId holder : String)
    (timestamp : Nat) (h : holder ≠ localId) :
    releaseLock localId (LockFileState.lock holder timestamp) =
      LockFileState.lock holder timestamp := by
  simp [releaseLock, h]

theorem releaseLock_keeps_other_holder_witness :
    releaseLock "alice@laptop" (LockFileState.lock "bob@desktop" 5) =
      LockFileState.lock "bob@desktop" 5 :=
  releaseLock_keeps_other_holder "alice@laptop" "bob@desktop" 5 (by decide)

/-! ## C10: documents without a checksum are accepted -/

/-- **C10.** A parsed V2 chat document carrying no `_checksum` field
passes `validateDataIntegrity`, so it is never rejected as corrupted and
never triggers a load retry on integrity grounds. -/
theorem missing_checksum_accepted (d : ChatDataV2)
    (h : d._checksum = none) : validateDataIntegrity d = true := by
  simp [validateDataIntegrity, h]

theorem missing_checksum_accepted_witness :
    validateDataIntegrity (createEmptyV2Data 0) = true :=
  missing_checksum_accepted (createEmptyV2Data 0) rfl

/-! ## C9: the content hash is not fixed-width -/

/-- **C9 counterexample.** The claim says every output of the content
hash has the same width; but `computeHash "f8"` is seven hex digits
while `computeHash ""` is eight (`toString(16)` does not pad). -/
theorem computeHash_not_fixed_width :
    (computeHash "f8").length = 7 ∧ (computeHash "").length = 8 := by
  decide

theorem natToHexAux_length_le (fuel n : Nat) :
    (natToHexAux fuel n).length ≤ fuel := by
  induction fuel generalizing n with
  | zero => simp [natToHexAux]
  | succ fuel ih =>
    simp only [natToHexAux]
    split
    · simp
    · simpa using Nat.add_le_add_right (ih (n / 16)) 1

/-- **C9 (amended).** The content hash is a pure total function from
strings to lowercase-hex tokens of a 32-bit accumulator; its outputs are
between one and eight characters wide (not all of one fixed width). -/
theorem computeHash_width_bounds (s : String) :
    1 ≤ (computeHash s).length ∧ (computeHash s).length ≤ 8 := by
  unfold computeHash natToHex
  split
  · exact ⟨by decide, by decide⟩
  · next hn =>
    have hlen : (String.mk (natToHexAux 8 (fnvAcc s))).length =
        (natToHexAux 8 (fnvAcc s)).length := rfl
    constructor
    · rw [hlen]
      have : natToHexAux 8 (fnvAcc s) =
          natToHexAux 7 (fnvAcc s / 16) ++ [hexDigitChar (fnvAcc s % 16)] := by
        simp [natToHexAux, hn]
      rw [this]
      simp
    · rw [hlen]
      exact natToHexAux_length_le 8 (fnvAcc s)

/-! ## C2: what a merge does to a deleted message -/

/-- **C2 counterexample.** The claim says a merge can never leave a
deleted message with non-empty derived fields; but merging a
non-deleted disk copy into a message deleted by `deleteMessage` keeps
the message deleted while repopulating its reaction list (the reaction
union never consults `ourMsg.deleted`). -/
theorem deleted_message_merge_keeps_reactions :
    (mergeMessageUpdates [] 0 deletedMsgEx diskMsgEx).deleted = true ∧
    (mergeMessageUpdates [] 0 deletedMsgEx diskMsgEx).reactions =
      some [⟨"👍", ["bob"]⟩] := by
  constructor <;> rfl

/-- **C2 (amended).** The deleted *flag* is monotonic: whenever either
the in-memory message or the disk message is marked deleted, the merged
result is marked deleted — no merge ever reverts deletion.  (Content and
derived fields are cleared at the moment of the deletion-adopting merge,
but a later merge against a stale non-deleted disk copy may repopulate
the reaction list, as the counterexample shows.) -/
theorem merge_deletion_monotonic (toggles : ToggleLedger) (now : Nat)
    (ourMsg diskMsg : ChatMessage)
    (h : ourMsg.deleted = true ∨ diskMsg.deleted = true) :
    (mergeMessageUpdates toggles now ourMsg diskMsg).deleted = true := by
  unfold mergeMessageUpdates
  rcases h with h | h <;>
    · simp only [h]
      repeat' split
      all_goals simp_all

theorem merge_deletion_monotonic_witness :
    (mergeMessageUpdates [] 0 deletedMsgEx diskMsgEx).deleted = true :=
  merge_deletion_monotonic [] 0 deletedMsgEx diskMsgEx (Or.inl rfl)

/-! ## C7: the 200-message cap -/

/-- **C7 (amended).** `sendMessage` enforces the cap: after its
append-and-slice step a channel's message list never exceeds
`MAX_MESSAGES_PER_CHANNEL` (200), the oldest messages being evicted.
(The message merges of `loadChat` and `saveChat` perform no such
eviction, as the counterexample shows.) -/
theorem sendMessage_respects_cap (msgs : List ChatMessage)
    (m : ChatMessage) :
    (sendMessagePush msgs m).length ≤ MAX_MESSAGES_PER_CHANNEL := by
  unfold sendMessagePush
  dsimp only
  split
  · next h =>
    rw [List.length_drop]
    omega
  · next h =>
    omega

set_option maxRecDepth 8000 in
/-- **C7 counterexample.** The claim extends the 200-message cap to the
merges performed by `loadChat` and `saveChat`; but merging one new disk
message into a channel already holding 200 yields 201 messages — the
merge path never evicts. -/
theorem merge_exceeds_message_cap :
    (mergeChannelMessages [] [] 0 capOursEx capDiskEx).length = 201 := by
  decide

/-! ## C1: the reaction union of a message merge

The lemma chain characterizes exactly which (emoji, user) pairs survive
`mergeMessageUpdates`' reaction union. -/

theorem keys_emojiMapAdd (m : List (String × List String)) (e u : String) :
    emojiMapKeys (emojiMapAdd m e u) = emojiMapKeys m := by
  simp only [emojiMapKeys, emojiMapAdd, List.map_map]
  apply List.map_congr_left
  intro p _
  by_cases h : p.1 = e <;> simp [h]

theorem mem_keys_emojiMapEnsure (m : List (String × List String)) (e : String) :
    e ∈ emojiMapKeys (emojiMapEnsure m e) := by
  unfold emojiMapEnsure
  split
  · next h =>
    rw [List.any_eq_true] at h
    obtain ⟨p, hp, he⟩ := h
    rw [beq_iff_eq] at he
    subst he
    exact List.mem_map_of_mem _ hp
  · simp [emojiMapKeys]

theorem emojiMapAdd_fst (e u : String) (p : String × List String) :
    (if p.1 == e then (p.1, if u ∈ p.2 then p.2 else p.2 ++ [u]) else p).1 = p.1 := by
  by_cases h : p.1 = e <;> simp [h]

theorem emojiMapAdd_snd (e u : String) (p : String × List String) (b : String) :
    b ∈ (if p.1 == e then (p.1, if u ∈ p.2 then p.2 else p.2 ++ [u]) else p).2 ↔
      b ∈ p.2 ∨ (p.1 = e ∧ b = u) := by
  by_cases h : p.1 = e
  · by_cases hu : u ∈ p.2
    · simp only [h, beq_self_eq_true, if_true, if_pos hu, eq_self_iff_true,
        true_and]
      constructor
      · exact Or.inl
      · rintro (hb | rfl)
        · exact hb
        · exact hu
    · simp only [h, beq_self_eq_true, if_true, if_neg hu, List.mem_append,
        List.mem_singleton, eq_self_iff_true, true_and]
  · have hb : ¬ (p.1 == e) = true := by simp [h]
    simp [hb, h]

theorem hasPair_emojiMapAdd (m : List (String × List String)) (e u a b : String) :
    hasPair (emojiMapAdd m e u) a b ↔
      hasPair m a b ∨ (a = e ∧ b = u ∧ e ∈ emojiMapKeys m) := by
  unfold hasPair emojiMapAdd
  constructor
  · rintro ⟨q, hq, hqa, hqb⟩
    rw [List.mem_map] at hq
    obtain ⟨p, hp, rfl⟩ := hq
    rw [emojiMapAdd_fst] at hqa
    rw [emojiMapAdd_snd] at hqb
    rcases hqb with hb | ⟨hpe, rfl⟩
    · exact Or.inl ⟨p, hp, hqa, hb⟩
    · exact Or.inr ⟨hqa ▸ hpe, rfl,
        List.mem_map.mpr ⟨p, hp, hpe⟩⟩
  · rintro (⟨p, hp, hpa, hpb⟩ | ⟨rfl, rfl, he⟩)
    · exact ⟨_, List.mem_map_of_mem _ hp, (emojiMapAdd_fst e u p).trans hpa,
        (emojiMapAdd_snd e u p b).mpr (Or.inl hpb)⟩
    · rw [emojiMapKeys, List.mem_map] at he
      obtain ⟨p, hp, hpe⟩ := he
      exact ⟨_, List.mem_map_of_mem _ hp, (emojiMapAdd_fst a b p).trans hpe,
        (emojiMapAdd_snd a b p b).mpr (Or.inr ⟨hpe, rfl⟩)⟩

theorem hasPair_emojiMapEnsure (m : List (String × List String)) (e a b : String) :
    hasPair (emojiMapEnsure m e) a b ↔ hasPair m a b := by
  unfold hasPair emojiMapEnsure
  split
  · exact Iff.rfl
  · constructor
    · rintro ⟨p, hp, hpa, hpb⟩
      rcases List.mem_append.mp hp with hp | hp
      · exact ⟨p, hp, hpa, hpb⟩
      · simp only [List.mem_singleton] at hp
        subst hp
        cases hpb
    · rintro ⟨p, hp, hpa, hpb⟩
      exact ⟨p, List.mem_append_left _ hp, hpa, hpb⟩

theorem keys_emojiMapEnsure_self (m : List (String × List String)) (e : String) :
    e ∈ emojiMapKeys (emojiMapEnsure m e) :=
  mem_keys_emojiMapEnsure m e

theorem hasPair_usersFoldOur (a b : String) :
    ∀ (us : List String) (m : List (String × List String)) (e : String),
      e ∈ emojiMapKeys m →
      (hasPair (us.foldl (fun m u => emojiMapAdd m e u) m) a b ↔
        hasPair m a b ∨ (a = e ∧ b ∈ us)) := by
  intro us
  induction us with
  | nil => intro m e _; simp
  | cons u us ih =>
    intro m e he
    rw [List.foldl_cons]
    rw [ih (emojiMapAdd m e u) e (by rw [keys_emojiMapAdd]; exact he)]
    rw [hasPair_emojiMapAdd]
    constructor
    · rintro ((hm | ⟨rfl, rfl, -⟩) | ⟨rfl, hb⟩)
      · exact Or.inl hm
      · exact Or.inr ⟨rfl, List.mem_cons_self _ _⟩
      · exact Or.inr ⟨rfl, List.mem_cons_of_mem _ hb⟩
    · rintro (hm | ⟨rfl, hb⟩)
      · exact Or.inl (Or.inl hm)
      · rcases List.mem_cons.mp hb with rfl | hb
        · exact Or.inl (Or.inr ⟨rfl, rfl, he⟩)
        · exact Or.inr ⟨rfl, hb⟩

theorem hasPair_mergeOurReactions (a b : String) :
    ∀ (rs : List ChatReaction) (m : List (String × List String)),
      hasPair (mergeOurReactions m rs) a b ↔
        hasPair m a b ∨ ∃ r ∈ rs, a = r.emoji ∧ b ∈ r.users := by
  intro rs
  induction rs with
  | nil => intro m; simp [mergeOurReactions]
  | cons r rs ih =>
    intro m
    unfold mergeOurReactions at ih ⊢
    rw [List.foldl_cons]
    rw [ih]
    rw [hasPair_usersFoldOur a b r.users (emojiMapEnsure m r.emoji) r.emoji
      (keys_emojiMapEnsure_self m r.emoji)]
    rw [hasPair_emojiMapEnsure]
    constructor
    · rintro ((hm | ⟨rfl, hb⟩) | ⟨r', hr', h1, h2⟩)
      · exact Or.inl hm
      · exact Or.inr ⟨r, List.mem_cons_self _ _, rfl, hb⟩
      · exact Or.inr ⟨r', List.mem_cons_of_mem _ hr', h1, h2⟩
    · rintro (hm | ⟨r', hr', h1, h2⟩)
      · exact Or.inl (Or.inl hm)
      · rcases List.mem_cons.mp hr' with rfl | hr'
        · exact Or.inl (Or.inr ⟨h1, h2⟩)
        · exact Or.inr ⟨r', hr', h1, h2⟩

theorem hasPair_usersFoldDisk (toggles : ToggleLedger) (now : Nat) (a b : String) :
    ∀ (us : List String) (m : List (String × List String)) (e : String),
      e ∈ emojiMapKeys m →
      (hasPair (us.foldl (fun m u =>
          if getRecentReactionToggle toggles now e u = some false then m
          else emojiMapAdd m e u) m) a b ↔
        hasPair m a b ∨
          (a = e ∧ b ∈ us ∧ getRecentReactionToggle toggles now e b ≠ some false)) := by
  intro us
  induction us with
  | nil => intro m e _; simp
  | cons u us ih =>
    intro m e he
    rw [List.foldl_cons]
    by_cases hl : getRecentReactionToggle toggles now e u = some false
    · rw [if_pos hl]
      rw [ih m e he]
      constructor
      · rintro (hm | ⟨rfl, hb, hc⟩)
        · exact Or.inl hm
        · exact Or.inr ⟨rfl, List.mem_cons_of_mem _ hb, hc⟩
      · rintro (hm | ⟨rfl, hb, hc⟩)
        · exact Or.inl hm
        · rcases List.mem_cons.mp hb with rfl | hb
          · exact absurd hl hc
          · exact Or.inr ⟨rfl, hb, hc⟩
    · rw [if_neg hl]
      rw [ih (emojiMapAdd m e u) e (by rw [keys_emojiMapAdd]; exact he)]
      rw [hasPair_emojiMapAdd]
      constructor
      · rintro ((hm | ⟨rfl, rfl, -⟩) | ⟨rfl, hb, hc⟩)
        · exact Or.inl hm
        · exact Or.inr ⟨rfl, List.mem_cons_self _ _, hl⟩
        · exact Or.inr ⟨rfl, List.mem_cons_of_mem _ hb, hc⟩
      · rintro (hm | ⟨rfl, hb, hc⟩)
        · exact Or.inl (Or.inl hm)
        · rcases List.mem_cons.mp hb with rfl | hb
          · exact Or.inl (Or.inr ⟨rfl, rfl, he⟩)
          · exact Or.inr ⟨rfl, hb, hc⟩

theorem hasPair_mergeDiskReactions (toggles : ToggleLedger) (now : Nat)
    (a b : String) :
    ∀ (rs : List ChatReaction) (m : List (String × List String)),
      hasPair (mergeDiskReactions toggles now m rs) a b ↔
        hasPair m a b ∨
          ∃ r ∈ rs, a = r.emoji ∧ b ∈ r.users ∧
            getRecentReactionToggle toggles now r.emoji b ≠ some false := by
  intro rs
  induction rs with
  | nil => intro m; simp [mergeDiskReactions]
  | cons r rs ih =>
    intro m
    unfold mergeDiskReactions at ih ⊢
    rw [List.foldl_cons]
    rw [ih]
    rw [hasPair_usersFoldDisk toggles now a b r.users
      (emojiMapEnsure m r.emoji) r.emoji (keys_emojiMapEnsure_self m r.emoji)]
    rw [hasPair_emojiMapEnsure]
    constructor
    · rintro ((hm | ⟨rfl, hb, hc⟩) | ⟨r', hr', h1, h2, h3⟩)
      · exact Or.inl hm
      · exact Or.inr ⟨r, List.mem_cons_self _ _, rfl, hb, hc⟩
      · exact Or.inr ⟨r', List.mem_cons_of_mem _ hr', h1, h2, h3⟩
    · rintro (hm | ⟨r', hr', h1, h2, h3⟩)
      · exact Or.inl (Or.inl hm)
      · rcases List.mem_cons.mp hr' with rfl | hr'
        · exact Or.inl (Or.inr ⟨h1, h2, h1 ▸ h3⟩)
        · exact Or.inr ⟨r', hr', h1, h2, h3⟩

theorem hasPair_mergeToggleReactions (now : Nat) (a b : String) :
    ∀ (toggles : ToggleLedger) (m : List (String × List String)),
      hasPair (mergeToggleReactions toggles now m) a b ↔
        hasPair m a b ∨
          ∃ ent : ToggleEntry, ((a, b), ent) ∈ toggles ∧
            ¬ now - ent.timestamp > REACTION_TOGGLE_PROTECTION_DURATION ∧
            ent.added = true := by
  intro toggles
  induction toggles with
  | nil => intro m; simp [mergeToggleReactions]
  | cons t rest ih =>
    intro m
    unfold mergeToggleReactions at ih ⊢
    rw [List.foldl_cons]
    by_cases hf : now - t.2.timestamp > REACTION_TOGGLE_PROTECTION_DURATION
    · rw [if_pos hf, ih m]
      constructor
      · rintro (hm | ⟨ent, hent, h1, h2⟩)
        · exact Or.inl hm
        · exact Or.inr ⟨ent, List.mem_cons_of_mem _ hent, h1, h2⟩
      · rintro (hm | ⟨ent, hent, h1, h2⟩)
        · exact Or.inl hm
        · rcases List.mem_cons.mp hent with heq | hent
          · have hent2 : ent = t.2 := congrArg Prod.snd heq
            subst hent2
            exact absurd hf h1
          · exact Or.inr ⟨ent, hent, h1, h2⟩
    · rw [if_neg hf]
      by_cases ha : t.2.added
      · rw [if_pos ha]
        rw [ih (emojiMapAdd (emojiMapEnsure m t.1.1) t.1.1 t.1.2)]
        rw [hasPair_emojiMapAdd, hasPair_emojiMapEnsure]
        constructor
        · rintro ((hm | ⟨rfl, rfl, -⟩) | ⟨ent, hent, h1, h2⟩)
          · exact Or.inl hm
          · exact Or.inr ⟨t.2, by
              { exact List.mem_cons_self _ _ }, hf, ha⟩
          · exact Or.inr ⟨ent, List.mem_cons_of_mem _ hent, h1, h2⟩
        · rintro (hm | ⟨ent, hent, h1, h2⟩)
          · exact Or.inl (Or.inl hm)
          · rcases List.mem_cons.mp hent with heq | hent
            · have hab : (a, b) = t.1 := congrArg Prod.fst heq
              exact Or.inl (Or.inr ⟨congrArg Prod.fst hab, congrArg Prod.snd hab,
                mem_keys_emojiMapEnsure m t.1.1⟩)
            · exact Or.inr ⟨ent, hent, h1, h2⟩
      · rw [if_neg ha, ih m]
        constructor
        · rintro (hm | ⟨ent, hent, h1, h2⟩)
          · exact Or.inl hm
          · exact Or.inr ⟨ent, List.mem_cons_of_mem _ hent, h1, h2⟩
        · rintro (hm | ⟨ent, hent, h1, h2⟩)
          · exact Or.inl hm
          · rcases List.mem_cons.mp hent with heq | hent
            · have hent2 : ent = t.2 := congrArg Prod.snd heq
              subst hent2
              exact absurd h2 ha
            · exact Or.inr ⟨ent, hent, h1, h2⟩

theorem find?_key_eq_of_mem_nodup (l : ToggleLedger) (k : String × String)
    (v : ToggleEntry) (hnd : (l.map Prod.fst).Nodup) (h : (k, v) ∈ l) :
    l.find? (fun e => e.1 == k) = some (k, v) := by
  induction l with
  | nil => cases h
  | cons p rest ih =>
    rw [List.map_cons, List.nodup_cons] at hnd
    rcases List.mem_cons.mp h with heq | hmem
    · subst heq
      simp [List.find?_cons]
    · by_cases hk : p.1 = k
      · exact absurd (hk ▸ List.mem_map_of_mem Prod.fst hmem) hnd.1
      · have : (p.1 == k) = false := by simp [hk]
        rw [List.find?_cons, this]
        exact ih hnd.2 hmem

theorem toggleExists_iff_lookup (toggles : ToggleLedger) (now : Nat)
    (a b : String) (hnd : (toggles.map Prod.fst).Nodup) :
    (∃ ent : ToggleEntry, ((a, b), ent) ∈ toggles ∧
        ¬ now - ent.timestamp > REACTION_TOGGLE_PROTECTION_DURATION ∧
        ent.added = true) ↔
      getRecentReactionToggle toggles now a b = some true := by
  constructor
  · rintro ⟨ent, hent, h1, h2⟩
    unfold getRecentReactionToggle
    rw [find?_key_eq_of_mem_nodup toggles (a, b) ent hnd hent]
    simp [h1, h2]
  · intro h
    unfold getRecentReactionToggle at h
    rcases hf : toggles.find? (fun e => e.1 == (a, b)) with - | e
    · rw [hf] at h; cases h
    · rw [hf] at h
      have h' : (if now - e.2.timestamp > REACTION_TOGGLE_PROTECTION_DURATION
          then none else some e.2.added) = some true := h
      have hkey : e.1 = (a, b) := by
        have := List.find?_some hf
        simpa using this
      have hmem : e ∈ toggles := List.mem_of_find?_eq_some hf
      by_cases hfr : now - e.2.timestamp > REACTION_TOGGLE_PROTECTION_DURATION
      · rw [if_pos hfr] at h'; cases h'
      · rw [if_neg hfr] at h'
        refine ⟨e.2, ?_, hfr, by simpa using h'.symm⟩
        rw [show ((a, b), e.2) = e from by rw [← hkey]]
        exact hmem

theorem mem_reactionListPairs (rs : List ChatReaction) (a b : String) :
    (a, b) ∈ reactionListPairs rs ↔ ∃ r ∈ rs, a = r.emoji ∧ b ∈ r.users := by
  simp only [reactionListPairs, List.mem_flatMap, List.mem_map, Prod.mk.injEq]
  constructor
  · rintro ⟨r, hr, u, hu, h1, h2⟩
    exact ⟨r, hr, h1.symm, h2 ▸ hu⟩
  · rintro ⟨r, hr, rfl, hb⟩
    exact ⟨r, hr, b, hb, rfl, rfl⟩

theorem mem_pairs_emojiMapToReactions (m : List (String × List String))
    (a b : String) :
    (a, b) ∈ reactionListPairs (emojiMapToReactions m) ↔ hasPair m a b := by
  rw [mem_reactionListPairs]
  unfold emojiMapToReactions hasPair
  constructor
  · rintro ⟨r, hr, rfl, hb⟩
    rw [List.mem_map] at hr
    obtain ⟨p, hp, rfl⟩ := hr
    exact ⟨p, (List.mem_filter.mp hp).1, rfl, hb⟩
  · rintro ⟨p, hp, rfl, hb⟩
    refine ⟨ChatReaction.mk p.1 p.2, ?_, rfl, hb⟩
    apply List.mem_map_of_mem
    rw [List.mem_filter]
    refine ⟨hp, ?_⟩
    simp only [decide_eq_true_eq]
    intro hemp
    rw [List.isEmpty_iff] at hemp
    rw [hemp] at hb
    cases hb

theorem reactionPairs_eq (o : Option (List ChatReaction)) :
    reactionPairs o = reactionListPairs (o.getD []) := rfl

theorem hasPair_mergedReactionList (toggles : ToggleLedger) (now : Nat)
    (ourMsg diskMsg : ChatMessage) (hnd : (toggles.map Prod.fst).Nodup)
    (a b : String) :
    (a, b) ∈ reactionListPairs (mergedReactionList toggles now ourMsg diskMsg) ↔
      (a, b) ∈ reactionPairs ourMsg.reactions ∨
      ((a, b) ∈ reactionPairs diskMsg.reactions ∧
        getRecentReactionToggle toggles now a b ≠ some false) ∨
      getRecentReactionToggle toggles now a b = some true := by
  unfold mergedReactionList
  rw [mem_pairs_emojiMapToReactions]
  rw [hasPair_mergeToggleReactions]
  rw [hasPair_mergeDiskReactions]
  rw [hasPair_mergeOurReactions]
  rw [toggleExists_iff_lookup toggles now a b hnd]
  rw [reactionPairs_eq, reactionPairs_eq, mem_reactionListPairs,
    mem_reactionListPairs]
  have hasPair_nil : ¬ hasPair [] a b := by rintro ⟨p, hp, -⟩; cases hp
  constructor
  · rintro (((hnil | hour) | hdisk) | htog)
    · exact absurd hnil hasPair_nil
    · exact Or.inl hour
    · obtain ⟨r, hr, rfl, hb, hc⟩ := hdisk
      exact Or.inr (Or.inl ⟨⟨r, hr, rfl, hb⟩, hc⟩)
    · exact Or.inr (Or.inr htog)
  · rintro (hour | ⟨⟨r, hr, rfl, hb⟩, hc⟩ | htog)
    · exact Or.inl (Or.inl (Or.inr hour))
    · exact Or.inl (Or.inr ⟨r, hr, rfl, hb, hc⟩)
    · exact Or.inr htog

theorem mergeMessageUpdates_reactions_of_disk_present (toggles : ToggleLedger)
    (now : Nat) (ourMsg diskMsg : ChatMessage) (drs : List ChatReaction)
    (hd : diskMsg.deleted = false) (hr : diskMsg.reactions = some drs) :
    (mergeMessageUpdates toggles now ourMsg diskMsg).reactions =
      (if (mergedReactionList toggles now ourMsg diskMsg).isEmpty then none
       else some (mergedReactionList toggles now ourMsg diskMsg)) := by
  unfold mergeMessageUpdates
  simp only [hd, hr, Option.isNone_some, false_and, if_false, Bool.false_eq_true,
    and_false]
  have hflip : (if ¬ (mergedReactionList toggles now ourMsg diskMsg).isEmpty = true
        then some (mergedReactionList toggles now ourMsg diskMsg) else none) =
      (if (mergedReactionList toggles now ourMsg diskMsg).isEmpty = true then none
       else some (mergedReactionList toggles now ourMsg diskMsg)) := by
    by_cases hemp : (mergedReactionList toggles now ourMsg diskMsg).isEmpty <;>
      simp [hemp]
  split
  · split
    · exact hflip
    · split
      · exact hflip
      · exact hflip
  · exact hflip

theorem reactionPairs_of_merge (toggles : ToggleLedger) (now : Nat)
    (ourMsg diskMsg : ChatMessage) (drs : List ChatReaction)
    (hd : diskMsg.deleted = false) (hr : diskMsg.reactions = some drs)
    (a b : String) :
    ((a, b) ∈ reactionPairs (mergeMessageUpdates toggles now ourMsg diskMsg).reactions ↔
      (a, b) ∈ reactionListPairs (mergedReactionList toggles now ourMsg diskMsg)) := by
  rw [mergeMessageUpdates_reactions_of_disk_present toggles now ourMsg diskMsg drs hd hr]
  split
  · next hemp =>
    rw [List.isEmpty_iff] at hemp
    rw [hemp]
    simp [reactionPairs, reactionListPairs]
  · rw [reactionPairs_eq]
    rfl

/-- **C1 (amended).** When the disk message is not deleted and carries a
(possibly empty) stored reaction list, the merged reactions are exactly
the union of the (emoji, user) pairs of both sides, except that a pair
the local user toggled off within the 60-second TTL is dropped from the
*disk side's* contribution (a pair still present in the in-memory list
is kept), and every pair the local user toggled on within the TTL is
force-included.  (`toggles` is this message's toggle ledger; a JavaScript
`Map` has unique keys, whence the `Nodup` hypothesis.) -/
theorem merge_reaction_union (toggles : ToggleLedger) (now : Nat)
    (ourMsg diskMsg : ChatMessage) (drs : List ChatReaction)
    (hd : diskMsg.deleted = false) (hr : diskMsg.reactions = some drs)
    (hnd : (toggles.map Prod.fst).Nodup) (a b : String) :
    (a, b) ∈ reactionPairs (mergeMessageUpdates toggles now ourMsg diskMsg).reactions ↔
      (a, b) ∈ reactionPairs ourMsg.reactions ∨
      ((a, b) ∈ reactionPairs diskMsg.reactions ∧
        getRecentReactionToggle toggles now a b ≠ some false) ∨
      getRecentReactionToggle toggles now a b = some true := by
  rw [reactionPairs_of_merge toggles now ourMsg diskMsg drs hd hr]
  exact hasPair_mergedReactionList toggles now ourMsg diskMsg hnd a b

/-- **C1 counterexample.** The claim says the merged result omits every
pair the local user toggled off within the TTL "even when the disk copy
still contains it"; but the source filters the toggle ledger only
against the *disk* side's reactions — a toggled-off pair still present
in the in-memory reaction list survives the union.  Here (👍, bob) was
toggled off at time 0, both sides still store it, and the merge at time
0 keeps it. -/
theorem toggled_off_reaction_survives_merge :
    getRecentReactionToggle togOffLedEx 0 "👍" "bob" = some false ∧
    ("👍", "bob") ∈
      reactionPairs (mergeMessageUpdates togOffLedEx 0 ourReactEx diskReactEx).reactions := by
  constructor
  · rfl
  · decide

theorem merge_reaction_union_witness :
    (("🎉", "carol") ∈
        reactionPairs (mergeMessageUpdates togOnLedEx 0 ourNoReactEx diskNoReactEx).reactions) ↔
      (("🎉", "carol") ∈ reactionPairs ourNoReactEx.reactions ∨
        (("🎉", "carol") ∈ reactionPairs diskNoReactEx.reactions ∧
          getRecentReactionToggle togOnLedEx 0 "🎉" "carol" ≠ some false) ∨
        getRecentReactionToggle togOnLedEx 0 "🎉" "carol" = some true) :=
  merge_reaction_union togOnLedEx 0 ourNoReactEx diskNoReactEx [] rfl rfl
    (by decide) "🎉" "carol"

/-! ## C3: the single-primary-admin invariant -/

theorem saveUsersMergeRepair_eq (ours disk : List VaultUser)
    (deletedLed : List (String × Nat)) (now : Nat) :
    saveUsersMergeRepair ours disk deletedLed now =
      (assignRegNums 1 (sortByRegistered (ours ++ disk.filter (fun d =>
        ¬ ours.any (fun o => o.localIdentifier == d.localIdentifier) ∧
        ¬ isRecentlyDeletedUser deletedLed now d.localIdentifier)))).map
        adminRepairFun := rfl

theorem shapeFrom_assign_repair :
    ∀ (l : List VaultUser) (n : Nat),
      shapeFrom n ((assignRegNums n l).map adminRepairFun) := by
  intro l
  induction l with
  | nil => intro n; trivial
  | cons u us ih =>
    intro n
    simp only [assignRegNums, List.map_cons, shapeFrom]
    refine ⟨?_, ?_, ?_, ih (n + 1)⟩
    · unfold adminRepairFun
      split
      · rfl
      · split <;> rfl
    · unfold adminRepairFun
      by_cases hn : n = 1
      · subst hn
        rw [if_pos rfl]
        simp
      · rw [if_neg (by simp [hn])]
        split
        · next h => simp [hn]
        · next h => simp only [hn, iff_false]; exact h
    · intro hn
      subst hn
      unfold adminRepairFun
      rw [if_pos rfl]

theorem shapeFrom_merge (ours disk : List VaultUser)
    (deletedLed : List (String × Nat)) (now : Nat) :
    shapeFrom 1 (saveUsersMergeRepair ours disk deletedLed now) := by
  rw [saveUsersMergeRepair_eq]
  exact shapeFrom_assign_repair _ 1

theorem shapeFrom_no_primary :
    ∀ (l : List VaultUser) (n : Nat), 2 ≤ n → shapeFrom n l →
      ∀ v ∈ l, v.adminLevel ≠ some AdminLevel.primary := by
  intro l
  induction l with
  | nil => intro n _ _ v hv; cases hv
  | cons u us ih =>
    intro n hn h v hv
    obtain ⟨-, hiff, -, hrest⟩ := h
    rcases List.mem_cons.mp hv with rfl | hv
    · intro hp
      exact absurd (hiff.mp hp) (by omega)
    · exact ih (n + 1) (by omega) hrest v hv

theorem shapeFrom_regNum_ge :
    ∀ (l : List VaultUser) (n : Nat), shapeFrom n l →
      ∀ v ∈ l, ∃ k, v.registrationNumber = some k ∧ n ≤ k := by
  intro l
  induction l with
  | nil => intro n _ v hv; cases hv
  | cons u us ih =>
    intro n h v hv
    obtain ⟨hrn, -, -, hrest⟩ := h
    rcases List.mem_cons.mp hv with rfl | hv
    · exact ⟨n, hrn, le_refl n⟩
    · obtain ⟨k, hk, hnk⟩ := ih (n + 1) hrest v hv
      exact ⟨k, hk, by omega⟩

theorem shapeFrom_countPrimary (u : VaultUser) (us : List VaultUser)
    (h : shapeFrom 1 (u :: us)) :
    ((u :: us).filter
      (fun v => v.adminLevel = some AdminLevel.primary)).length = 1 := by
  obtain ⟨-, hiff, -, hrest⟩ := h
  have hu : u.adminLevel = some AdminLevel.primary := hiff.mpr rfl
  have hus : us.filter (fun v => v.adminLevel = some AdminLevel.primary) = [] := by
    rw [List.filter_eq_nil_iff]
    intro v hv
    have := shapeFrom_no_primary us 2 (le_refl 2) hrest v hv
    simpa using this
  rw [List.filter_cons]
  simp [hu, hus]

theorem shapeFrom_adminInvariant (l : List VaultUser)
    (hne : l ≠ []) (h : shapeFrom 1 l) : adminInvariant l := by
  match l, hne with
  | u :: us, _ =>
    constructor
    · exact shapeFrom_countPrimary u us h
    · intro p hp hprim v hv hvnp pn un hpn hun
      obtain ⟨hrn, hiff, -, hrest⟩ := h
      have hpu : p = u := by
        rcases List.mem_cons.mp hp with rfl | hp
        · rfl
        · exact absurd hprim (shapeFrom_no_primary us 2 (le_refl 2) hrest p hp)
      subst hpu
      have hpn1 : pn = 1 := by
        rw [hrn] at hpn
        exact (Option.some.injEq _ _ ▸ hpn : 1 = pn).symm
      have hvus : v ∈ us := by
        rcases List.mem_cons.mp hv with rfl | hv
        · exact absurd hprim hvnp
        · exact hv
      obtain ⟨k, hk, h2k⟩ := shapeFrom_regNum_ge us 2 hrest v hvus
      rw [hk] at hun
      have : k = un := by simpa using hun
      omega

theorem ensureAdminStep1_of_shape (l : List VaultUser)
    (h : shapeFrom 1 l) : ensureAdminStep1 l = l := by
  unfold ensureAdminStep1
  rw [if_neg]
  simp only [List.any_eq_true, decide_eq_true_eq, not_exists, not_and]
  intro v hv
  obtain ⟨k, hk, h1k⟩ := shapeFrom_regNum_ge l 1 h v hv
  simp [hk]
  omega

theorem ensureAdminStep2_of_shape (u : VaultUser) (us : List VaultUser)
    (h : shapeFrom 1 (u :: us)) : ensureAdminStep2 (u :: us) = u :: us := by
  unfold ensureAdminStep2
  rw [if_neg]
  rw [shapeFrom_countPrimary u us h]
  simp

theorem ensureAdminStep3_of_shape (u : VaultUser) (us : List VaultUser)
    (h : shapeFrom 1 (u :: us)) : ensureAdminStep3 (u :: us) = u :: us := by
  obtain ⟨hrn, hiff, hadm, -⟩ := h
  have hprim := hiff.mpr rfl
  have hisad := hadm rfl
  unfold ensureAdminStep3 updateFirst
  rw [if_pos (by simp [hrn])]
  rw [if_neg]
  simp [hisad, hprim]

theorem shapeFrom_map_secondaryFill :
    ∀ (l : List VaultUser) (n : Nat), shapeFrom n l →
      shapeFrom n (l.map secondaryFillFun) := by
  intro l
  induction l with
  | nil => intro n _; trivial
  | cons u us ih =>
    intro n h
    obtain ⟨hrn, hiff, hadm, hrest⟩ := h
    simp only [List.map_cons, shapeFrom]
    refine ⟨?_, ?_, ?_, ih (n + 1) hrest⟩
    · unfold secondaryFillFun
      split <;> exact hrn
    · unfold secondaryFillFun
      split
      · next hc =>
        constructor
        · intro hsec
          cases hsec
        · intro hn
          exact absurd (hiff.mpr hn) (by rw [hc.2.1]; simp)
      · exact hiff
    · unfold secondaryFillFun
      split <;> exact hadm

theorem ensureAdminPure_of_shape (l : List VaultUser) (h : shapeFrom 1 l) :
    ensureAdminPure l = l.map secondaryFillFun := by
  match l with
  | [] => rfl
  | u :: us =>
    unfold ensureAdminPure
    rw [if_neg (by simp)]
    rw [ensureAdminStep1_of_shape (u :: us) h,
      ensureAdminStep2_of_shape u us h, ensureAdminStep3_of_shape u us h]

theorem applyUserStep_shape (users : List VaultUser) (st : UserStep) :
    shapeFrom 1 (applyUserStep users st) := by
  unfold applyUserStep
  have hm := shapeFrom_merge
    (if st.isRegister then registerPure users st.vaultName st.localId st.os st.now
     else unregisterPure users st.localId) st.disk st.deletedLed st.now
  rw [ensureAdminPure_of_shape _ hm]
  exact shapeFrom_map_secondaryFill _ 1 hm

theorem applyUserStep_invariant (users : List VaultUser) (st : UserStep)
    (hne : applyUserStep users st ≠ []) :
    adminInvariant (applyUserStep users st) :=
  shapeFrom_adminInvariant _ hne (applyUserStep_shape users st)

theorem runUserOps_shape :
    ∀ (steps : List UserStep) (users : List VaultUser),
      steps = [] ∨ shapeFrom 1 (steps.foldl applyUserStep users) := by
  intro steps
  induction steps with
  | nil => intro users; exact Or.inl rfl
  | cons st rest ih =>
    intro users
    refine Or.inr ?_
    rw [List.foldl_cons]
    rcases ih (applyUserStep users st) with hrest | hshape
    · subst hrest
      exact applyUserStep_shape users st
    · exact hshape

/-- **C3.** After any non-trivial history of register/unregister
operations — each completed by the `saveUsers` read-merge-repair against
an arbitrary concurrent disk state and by the reload's
`ensureAdminExists` pass — a non-empty users collection has exactly one
user with `adminLevel = primary`, and that user's registration number is
strictly the lowest. -/
theorem single_primary_admin (steps : List UserStep)
    (h : runUserOps steps ≠ []) : adminInvariant (runUserOps steps) := by
  rcases runUserOps_shape steps [] with hnil | hshape
  · subst hnil
    exact absurd rfl h
  · exact shapeFrom_adminInvariant _ h hshape

theorem single_primary_admin_witness :
    adminInvariant (runUserOps
      [⟨true, "alice", "alice@laptop", "linux", [], [], 10⟩,
       ⟨true, "bob", "bob@desktop", "darwin", [], [], 20⟩,
       ⟨false, "", "alice@laptop", "", [], [], 30⟩]) :=
  single_primary_admin _ (by decide)

/-! ## C5 and C6: channel membership protection and DM promotion -/

theorem find?_map_key_any {β : Type} (k : String) (v : β) :
    ∀ l : List (String × β), l.any (fun p => p.1 == k) = true →
      (l.map (fun p => if p.1 == k then (k, v) else p)).find?
        (fun p => p.1 == k) = some (k, v) := by
  intro l
  induction l with
  | nil => intro h; cases h
  | cons p rest ih =>
    intro h
    by_cases hp : p.1 = k
    · simp [List.find?_cons, hp]
    · have hp' : (p.1 == k) = false := by simp [hp]
      rw [List.map_cons, if_neg (by simp [hp]), List.find?_cons, hp']
      rw [List.any_cons, hp', Bool.false_or] at h
      exact ih h

theorem find?_append_key {β : Type} (k : String) (v : β) :
    ∀ l : List (String × β), l.any (fun p => p.1 == k) = false →
      (l ++ [(k, v)]).find? (fun p => p.1 == k) = some (k, v) := by
  intro l
  induction l with
  | nil => simp [List.find?_cons]
  | cons p rest ih =>
    intro h
    rw [List.any_cons] at h
    have hp : (p.1 == k) = false := by
      cases hb : (p.1 == k) <;> simp [hb] at h ⊢
    rw [List.cons_append, List.find?_cons, hp]
    exact ih (by cases hb : rest.any (fun p => p.1 == k) <;> simp [hb, hp] at h ⊢)

theorem mapGet?_mapSet_self {β : Type} (l : List (String × β)) (k : String)
    (v : β) : mapGet? (mapSet l k v) k = some v := by
  unfold mapGet? mapSet
  split
  · next h => rw [find?_map_key_any k v l h]; rfl
  · next h =>
    rw [find?_append_key k v l (by simp only [Bool.not_eq_true] at h; exact h)]
    rfl

theorem mem_updateFirst {α : Type} (p : α → Bool) (f : α → α) :
    ∀ (l : List α) (c : α), c ∈ updateFirst p f l →
      c ∈ l ∨ ∃ x ∈ l, p x = true ∧ c = f x := by
  intro l
  induction l with
  | nil => intro c hc; cases hc
  | cons x xs ih =>
    intro c hc
    unfold updateFirst at hc
    split at hc
    · next hx =>
      rcases List.mem_cons.mp hc with rfl | hc
      · exact Or.inr ⟨x, List.mem_cons_self _ _, hx, rfl⟩
      · exact Or.inl (List.mem_cons_of_mem _ hc)
    · next hx =>
      rcases List.mem_cons.mp hc with rfl | hc
      · exact Or.inl (List.mem_cons_self _ _)
      · rcases ih c hc with hc | ⟨y, hy, hpy, hcy⟩
        · exact Or.inl (List.mem_cons_of_mem _ hc)
        · exact Or.inr ⟨y, List.mem_cons_of_mem _ hy, hpy, hcy⟩

theorem map_updateFirst {α β : Type} (p : α → Bool) (f : α → α) (g : α → β)
    (hg : ∀ x, g (f x) = g x) :
    ∀ l : List α, (updateFirst p f l).map g = l.map g := by
  intro l
  induction l with
  | nil => rfl
  | cons x xs ih =>
    unfold updateFirst
    split
    · simp [hg]
    · simp [ih]

theorem mem_updateFirst_of_key {α β : Type} [DecidableEq β] (p : α → Bool)
    (f : α → α) (idf : α → β) (k : β)
    (hp : ∀ x, p x = true ↔ idf x = k) :
    ∀ l : List α, (l.map idf).Nodup →
      ∀ c ∈ updateFirst p f l, idf c = k →
        ∃ x ∈ l, p x = true ∧ c = f x := by
  intro l
  induction l with
  | nil => intro _ c hc; cases hc
  | cons x xs ih =>
    intro hnd c hc hck
    rw [List.map_cons, List.nodup_cons] at hnd
    unfold updateFirst at hc
    split at hc
    · next hx =>
      rcases List.mem_cons.mp hc with rfl | hc
      · exact ⟨x, List.mem_cons_self _ _, hx, rfl⟩
      · refine absurd ?_ hnd.1
        have hxk : idf x = k := (hp x).mp hx
        rw [hxk, ← hck]
        exact List.mem_map_of_mem idf hc
    · next hx =>
      rcases List.mem_cons.mp hc with rfl | hc
      · exact absurd ((hp c).mpr hck) hx
      · obtain ⟨y, hy, hpy, hcy⟩ := ih hnd.2 c hc hck
        exact ⟨y, List.mem_cons_of_mem _ hy, hpy, hcy⟩

theorem not_mem_foldl_insert (u : String) :
    ∀ (adds ms : List String), u ∉ ms → (∀ m ∈ adds, m ≠ u) →
      u ∉ adds.foldl (fun ms m => if m ∈ ms then ms else ms ++ [m]) ms := by
  intro adds
  induction adds with
  | nil => intro ms h _; exact h
  | cons a adds ih =>
    intro ms hms hadds
    rw [List.foldl_cons]
    have hstep : u ∉ (if a ∈ ms then ms else ms ++ [a]) := by
      split
      · exact hms
      · rw [List.mem_append, List.mem_singleton]
        rintro (h | rfl)
        · exact hms h
        · exact hadds u (List.mem_cons_self _ _) rfl
    exact ih _ hstep (fun m hm => hadds m (List.mem_cons_of_mem _ hm))

theorem leaveChannel_recentlyLeft (s : ChatState) (t0 : Nat)
    (cu : Option String) (cid u sysId : String) (ch : Channel)
    (hch : s.channels.find? (fun c => c.id == cid) = some ch)
    (hng : ch.type ≠ ChannelType.general) :
    (leaveChannel s t0 cu cid u sysId).recentlyLeftChannels =
      mapSet s.recentlyLeftChannels cid t0 := by
  unfold leaveChannel deleteChannel
  split
  · next heq => rw [hch] at heq; cases heq
  · next ch' heq =>
    rw [hch] at heq
    injection heq with heq'
    subst heq'
    rw [if_neg hng]
    dsimp only
    repeat' split
    all_goals rfl

theorem leaveChannel_recentlyAdded (s : ChatState) (t0 : Nat)
    (cu : Option String) (cid u sysId : String) (ch : Channel)
    (hch : s.channels.find? (fun c => c.id == cid) = some ch)
    (hng : ch.type ≠ ChannelType.general) :
    (leaveChannel s t0 cu cid u sysId).recentlyAddedMembers =
      (match mapGet? s.recentlyAddedMembers cid with
       | none => s.recentlyAddedMembers
       | some inner => mapSet s.recentlyAddedMembers cid (mapDelete inner u)) := by
  unfold leaveChannel deleteChannel
  split
  · next heq => rw [hch] at heq; cases heq
  · next ch' heq =>
    rw [hch] at heq
    injection heq with heq'
    subst heq'
    rw [if_neg hng]
    dsimp only
    repeat' split
    all_goals rfl

theorem leaveChannel_channels_cases (s : ChatState) (t0 : Nat)
    (cu : Option String) (cid u sysId : String) (ch : Channel)
    (hch : s.channels.find? (fun c => c.id == cid) = some ch)
    (hng : ch.type ≠ ChannelType.general) :
    (leaveChannel s t0 cu cid u sysId).channels =
      updateFirst (fun c => c.id == cid)
        (fun c => { c with members := c.members.filter (fun m => ¬ m == u) })
        s.channels ∨
    (leaveChannel s t0 cu cid u sysId).channels =
      (updateFirst (fun c => c.id == cid)
        (fun c => { c with members := c.members.filter (fun m => ¬ m == u) })
        s.channels).filter (fun c => ¬ c.id == cid) := by
  unfold leaveChannel deleteChannel
  split
  · next heq => rw [hch] at heq; cases heq
  · next ch' heq =>
    rw [hch] at heq
    injection heq with heq'
    subst heq'
    rw [if_neg hng]
    dsimp only
    repeat' split
    all_goals first
      | exact Or.inl rfl
      | exact Or.inr rfl

theorem hasRecentlyLeft_after_leave (s : ChatState) (t0 now : Nat)
    (cu : Option String) (cid u sysId : String) (ch : Channel)
    (hch : s.channels.find? (fun c => c.id == cid) = some ch)
    (hng : ch.type ≠ ChannelType.general)
    (hts : now - t0 ≤ LEAVE_PROTECTION_DURATION) :
    hasRecentlyLeftChannel (leaveChannel s t0 cu cid u sysId) now cid = true := by
  unfold hasRecentlyLeftChannel
  rw [leaveChannel_recentlyLeft s t0 cu cid u sysId ch hch hng]
  rw [mapGet?_mapSet_self]
  simp only [gt_iff_lt, decide_eq_true_eq, Bool.not_eq_true']
  simp only [decide_eq_false_iff_not, not_lt]
  exact hts

theorem getRecentlyAdded_after_leave (s : ChatState) (t0 t1 : Nat)
    (cu : Option String) (cid u sysId : String) (ch : Channel)
    (hch : s.channels.find? (fun c => c.id == cid) = some ch)
    (hng : ch.type ≠ ChannelType.general) :
    ∀ m ∈ getRecentlyAddedMembers (leaveChannel s t0 cu cid u sysId) t1 cid,
      m ≠ u := by
  intro m hm
  unfold getRecentlyAddedMembers at hm
  rw [leaveChannel_recentlyAdded s t0 cu cid u sysId ch hch hng] at hm
  rcases hget : mapGet? s.recentlyAddedMembers cid with - | inner
  · rw [hget] at hm
    rw [hget] at hm
    cases hm
  · rw [hget] at hm
    rw [mapGet?_mapSet_self] at hm
    rw [List.mem_map] at hm
    obtain ⟨p, hp, rfl⟩ := hm
    have hp1 := (List.mem_filter.mp hp).1
    have hp2 := (List.mem_filter.mp hp1).2
    simp only [beq_iff_eq, decide_eq_true_eq, Bool.not_eq_true',
      decide_eq_false_iff_not] at hp2
    exact hp2

theorem leaveChannel_channels_no_u (s : ChatState) (t0 : Nat)
    (cu : Option String) (cid u sysId : String) (ch : Channel)
    (hch : s.channels.find? (fun c => c.id == cid) = some ch)
    (hng : ch.type ≠ ChannelType.general)
    (hnd : (s.channels.map (fun c => c.id)).Nodup) :
    ∀ c ∈ (leaveChannel s t0 cu cid u sysId).channels, c.id = cid →
      u ∉ c.members := by
  intro c hc hcid
  have hp : ∀ x : Channel, ((fun c => c.id == cid) x = true ↔ x.id = cid) := by
    intro x; simp
  rcases leaveChannel_channels_cases s t0 cu cid u sysId ch hch hng with h2 | h2 <;>
    rw [h2] at hc
  · obtain ⟨x, hx, hpx, rfl⟩ :=
      mem_updateFirst_of_key _ _ (fun c => c.id) cid hp s.channels hnd c hc hcid
    simp [List.mem_filter]
  · have := (List.mem_filter.mp hc).2
    simp [hcid] at this

theorem mergeMembers_no_u (sL : ChatState) (now : Nat) (u : String)
    (dch : Channel)
    (hleft : hasRecentlyLeftChannel sL now dch.id = true)
    (hadds : ∀ m ∈ getRecentlyAddedMembers sL now dch.id, m ≠ u) :
    u ∉ mergeMembersFromDisk sL now (some u) dch := by
  unfold mergeMembersFromDisk
  dsimp only
  rw [if_pos hleft]
  apply not_mem_foldl_insert u _ _ _ hadds
  simp [List.mem_filter]

theorem adoptDiskMembers_members (s : ChatState) (now : Nat)
    (cu : Option String) (dch ch : Channel) :
    (adoptDiskMembers s now cu dch ch).members =
      mergeMembersFromDisk s now cu dch := by
  unfold adoptDiskMembers
  dsimp only
  split <;> rfl

/-- **C5.** Leave-no-rejoin: if the current user `u` left channel `cid`
at time `t0` (via `leaveChannel`) and a disk snapshot that may still
list `u` as a member of that channel is merged at any time within the
300-second leave-protection TTL (`mergeDiskChannel`, covering both the
existing-channel and newly-adopted-channel paths of `loadChat`), then no
channel with that id in the resulting in-memory state has `u` among its
members. -/
theorem leave_no_rejoin (s : ChatState) (t0 now : Nat) (cu : Option String)
    (cid u sysId : String) (ch dch : Channel)
    (hch : s.channels.find? (fun c => c.id == cid) = some ch)
    (hng : ch.type ≠ ChannelType.general)
    (hid : dch.id = cid)
    (hts : now - t0 ≤ LEAVE_PROTECTION_DURATION)
    (hnd : (s.channels.map (fun c => c.id)).Nodup) :
    ∀ c ∈ (mergeDiskChannel (leaveChannel s t0 cu cid u sysId) now
        (some u) dch).channels,
      c.id = cid → u ∉ c.members := by
  intro c hc hcid
  have hleft : hasRecentlyLeftChannel (leaveChannel s t0 cu cid u sysId) now
      dch.id = true := by
    rw [hid]
    exact hasRecentlyLeft_after_leave s t0 now cu cid u sysId ch hch hng hts
  have hadds : ∀ m ∈ getRecentlyAddedMembers (leaveChannel s t0 cu cid u sysId)
      now dch.id, m ≠ u := by
    rw [hid]
    exact getRecentlyAdded_after_leave s t0 now cu cid u sysId ch hch hng
  have hF3 := leaveChannel_channels_no_u s t0 cu cid u sysId ch hch hng hnd
  have hmerge := mergeMembers_no_u (leaveChannel s t0 cu cid u sysId) now u dch
    hleft hadds
  unfold mergeDiskChannel at hc
  split at hc
  · exact hF3 c hc hcid
  · split at hc
    · next hfind =>
      dsimp only at hc
      rcases List.mem_append.mp hc with hc | hc
      · exact hF3 c hc hcid
      · rw [List.mem_singleton] at hc
        subst hc
        exact hmerge
    · next ch2 hfind =>
      dsimp only at hc
      rcases mem_updateFirst _ _ _ c hc with hc | ⟨x, hx, hpx, rfl⟩
      · exact hF3 c hc hcid
      · rw [adoptDiskMembers_members]
        exact hmerge

theorem promoteAndAdd_id (m : String) (c : Channel) :
    (promoteAndAdd m c).id = c.id := by
  unfold promoteAndAdd
  dsimp only
  split <;> rfl

theorem promoteAndAdd_type_of_dm (m : String) (c : Channel)
    (h : c.type = ChannelType.dm) :
    (promoteAndAdd m c).type = ChannelType.group := by
  unfold promoteAndAdd
  dsimp only
  rw [if_pos h]

theorem promoteAndAdd_type_of_group (m : String) (c : Channel)
    (h : c.type = ChannelType.group) :
    (promoteAndAdd m c).type = ChannelType.group := by
  unfold promoteAndAdd
  dsimp only
  rw [if_neg (by rw [h]; intro hc; cases hc)]
  exact h

theorem adoptDiskMembers_id (s : ChatState) (now : Nat) (cu : Option String)
    (dch ch : Channel) : (adoptDiskMembers s now cu dch ch).id = ch.id := by
  unfold adoptDiskMembers
  dsimp only
  split <;> rfl

theorem adoptDiskMembers_type (s : ChatState) (now : Nat) (cu : Option String)
    (dch ch : Channel) : (adoptDiskMembers s now cu dch ch).type = ch.type := by
  unfold adoptDiskMembers
  dsimp only
  split <;> rfl

theorem find?_updateFirst {α : Type} (p : α → Bool) (f : α → α)
    (hpf : ∀ x, p (f x) = p x) :
    ∀ (l : List α) (x : α), l.find? p = some x →
      (updateFirst p f l).find? p = some (f x) := by
  intro l
  induction l with
  | nil => intro x hx; cases hx
  | cons y ys ih =>
    intro x hx
    by_cases hy : p y = true
    · rw [List.find?_cons, hy] at hx
      injection hx with hx'
      subst hx'
      unfold updateFirst
      rw [if_pos hy, List.find?_cons, hpf, hy]
    · have hy' : p y = false := by simpa using hy
      rw [List.find?_cons, hy'] at hx
      unfold updateFirst
      rw [if_neg (by simp [hy']), List.find?_cons, hy']
      exact ih x hx

theorem addMember_channels_promote (s : ChatState) (now : Nat)
    (cu : Option String) (cid m by' sysId : String) (ch : Channel)
    (hch : s.channels.find? (fun c => c.id == cid) = some ch)
    (hng : ch.type ≠ ChannelType.general)
    (hm : m ∉ ch.members) :
    (addMemberToChannel s now cu cid m by' sysId).channels =
      updateFirst (fun c => c.id == cid) (promoteAndAdd m) s.channels := by
  unfold addMemberToChannel trackMemberAdded
  split
  · next heq => rw [hch] at heq; cases heq
  · next ch' heq =>
    rw [hch] at heq
    injection heq with heq'
    subst heq'
    rw [if_neg hng, if_neg hm]
    dsimp only
    repeat' split
    all_goals rfl

theorem addMember_channels_cases (s : ChatState) (now : Nat)
    (cu : Option String) (cid m by' sysId : String) :
    (addMemberToChannel s now cu cid m by' sysId).channels = s.channels ∨
    (addMemberToChannel s now cu cid m by' sysId).channels =
      updateFirst (fun c => c.id == cid) (promoteAndAdd m) s.channels := by
  unfold addMemberToChannel trackMemberAdded
  repeat' split
  all_goals first
    | exact Or.inl rfl
    | exact Or.inr rfl

theorem leaveChannel_channels_cases3 (s : ChatState) (t0 : Nat)
    (cu : Option String) (cid u sysId : String) :
    (leaveChannel s t0 cu cid u sysId).channels = s.channels ∨
    (leaveChannel s t0 cu cid u sysId).channels =
      updateFirst (fun c => c.id == cid)
        (fun c => { c with members := c.members.filter (fun m => ¬ m == u) })
        s.channels ∨
    (leaveChannel s t0 cu cid u sysId).channels =
      (updateFirst (fun c => c.id == cid)
        (fun c => { c with members := c.members.filter (fun m => ¬ m == u) })
        s.channels).filter (fun c => ¬ c.id == cid) := by
  unfold leaveChannel deleteChannel
  split
  · exact Or.inl rfl
  · split
    · exact Or.inl rfl
    · dsimp only
      repeat' split
      all_goals first
        | exact Or.inl rfl
        | exact Or.inr (Or.inl rfl)
        | exact Or.inr (Or.inr rfl)

theorem renameChannel_channels_cases (s : ChatState) (cid n : String) :
    (renameChannel s cid n).channels = s.channels ∨
    (renameChannel s cid n).channels =
      updateFirst (fun c => c.id == cid)
        (fun c => { c with name := trimString n }) s.channels := by
  unfold renameChannel
  repeat' split
  all_goals first
    | exact Or.inl rfl
    | exact Or.inr rfl

theorem mergeDiskChannel_channels_cases (s : ChatState) (now : Nat)
    (cu : Option String) (dch : Channel) :
    (mergeDiskChannel s now cu dch).channels = s.channels ∨
    (s.channels.find? (fun c => c.id == dch.id) = none ∧
      (mergeDiskChannel s now cu dch).channels =
        s.channels ++ [{ dch with members := mergeMembersFromDisk s now cu dch }]) ∨
    (mergeDiskChannel s now cu dch).channels =
      updateFirst (fun c => c.id == dch.id) (adoptDiskMembers s now cu dch)
        s.channels := by
  unfold mergeDiskChannel
  split
  · exact Or.inl rfl
  · split
    · next heq => exact Or.inr (Or.inl ⟨heq, rfl⟩)
    · exact Or.inr (Or.inr rfl)

theorem cleanup_channels_filter (s : ChatState) (now : Nat) :
    ∀ c ∈ (cleanupStaleChannels s now).channels, c ∈ s.channels := by
  intro c hc
  unfold cleanupStaleChannels at hc
  exact (List.mem_filter.mp hc).1

/-- **C6.** DM-to-group promotion is one-way.  First conjunct:
`addMemberToChannel` on a `dm` channel with a new member promotes it in
place to a `group`.  Second conjunct: no channel operation of the
manager — add member, leave, rename, disk-channel merge, or stale-DM
cleanup — ever turns a channel of type `group` into anything else (in
particular never back into `dm`). -/
theorem dm_promotion_one_way :
    (∀ (s : ChatState) (now : Nat) (cu : Option String)
        (cid m by' sysId : String) (ch : Channel),
      s.channels.find? (fun c => c.id == cid) = some ch →
      ch.type = ChannelType.dm → m ∉ ch.members →
      (addMemberToChannel s now cu cid m by' sysId).channels.find?
          (fun c => c.id == cid) = some (promoteAndAdd m ch) ∧
        (promoteAndAdd m ch).type = ChannelType.group) ∧
    (∀ (s : ChatState) (op : ChatOp) (c0 : Channel),
      (s.channels.map (fun c => c.id)).Nodup →
      c0 ∈ s.channels → c0.type = ChannelType.group →
      ∀ c ∈ (applyChatOp s op).channels, c.id = c0.id →
        c.type = ChannelType.group) := by
  constructor
  · intro s now cu cid m by' sysId ch hch hdm hm
    refine ⟨?_, promoteAndAdd_type_of_dm m ch hdm⟩
    rw [addMember_channels_promote s now cu cid m by' sysId ch hch
      (by rw [hdm]; intro hc; cases hc) hm]
    exact find?_updateFirst _ _ (fun x => by rw [promoteAndAdd_id]) s.channels ch hch
  · intro s op c0 hnd hc0 htype c hc hcid
    have hinj : ∀ a ∈ s.channels, a.id = c0.id → a = c0 := by
      intro a ha haid
      exact List.inj_on_of_nodup_map hnd ha hc0 haid
    have hmem_case : ∀ (p : Channel → Bool) (f : Channel → Channel),
        c ∈ updateFirst p f s.channels →
        (∀ x, (f x).id = x.id) →
        (∀ x, x.type = ChannelType.group →
          (f x).type = ChannelType.group) →
        c.type = ChannelType.group := by
      intro p f hmem hid htyp
      rcases mem_updateFirst p f s.channels c hmem with hmem | ⟨x, hx, -, rfl⟩
      · rw [hinj c hmem hcid]; exact htype
      · have hxid : x.id = c0.id := by rw [← hid x]; exact hcid
        rw [hinj x hx hxid]
        exact htyp c0 htype
    cases op with
    | addMember now cu cid m by' sysId =>
      rcases addMember_channels_cases s now cu cid m by' sysId with h | h <;>
        rw [show applyChatOp s (ChatOp.addMember now cu cid m by' sysId) =
          addMemberToChannel s now cu cid m by' sysId from rfl] at hc <;>
        rw [h] at hc
      · rw [hinj c hc hcid]; exact htype
      · exact hmem_case _ _ hc (fun x => promoteAndAdd_id m x)
          (fun x hx => promoteAndAdd_type_of_group m x hx)
    | leave now cu cid u sysId =>
      rcases leaveChannel_channels_cases3 s now cu cid u sysId with h | h | h <;>
        rw [show applyChatOp s (ChatOp.leave now cu cid u sysId) =
          leaveChannel s now cu cid u sysId from rfl] at hc <;>
        rw [h] at hc
      · rw [hinj c hc hcid]; exact htype
      · exact hmem_case _ _ hc (fun x => rfl) (fun x hx => hx)
      · exact hmem_case _ _ (List.mem_filter.mp hc).1 (fun x => rfl)
          (fun x hx => hx)
    | rename cid n =>
      rcases renameChannel_channels_cases s cid n with h | h <;>
        rw [show applyChatOp s (ChatOp.rename cid n) =
          renameChannel s cid n from rfl] at hc <;>
        rw [h] at hc
      · rw [hinj c hc hcid]; exact htype
      · exact hmem_case _ _ hc (fun x => rfl) (fun x hx => hx)
    | mergeDisk now cu dch =>
      rcases mergeDiskChannel_channels_cases s now cu dch with h | ⟨hfind, h⟩ | h <;>
        rw [show applyChatOp s (ChatOp.mergeDisk now cu dch) =
          mergeDiskChannel s now cu dch from rfl] at hc <;>
        rw [h] at hc
      · rw [hinj c hc hcid]; exact htype
      · rcases List.mem_append.mp hc with hc | hc
        · rw [hinj c hc hcid]; exact htype
        · rw [List.mem_singleton] at hc
          subst hc
          have : ¬ ((fun c => c.id == dch.id) c0 = true) :=
            List.find?_eq_none.mp hfind c0 hc0
          simp only [beq_iff_eq] at this
          exact absurd (by rw [← hcid]) this
      · refine hmem_case _ _ hc
          (fun x => adoptDiskMembers_id s now cu dch x) (fun x hx => ?_)
        rw [adoptDiskMembers_type]; exact hx
    | cleanup now =>
      have hc' := cleanup_channels_filter s now c
        (by rw [show applyChatOp s (ChatOp.cleanup now) =
          cleanupStaleChannels s now from rfl] at hc; exact hc)
      rw [hinj c hc' hcid]; exact htype

theorem leave_no_rejoin_witness : "u" ∉ mergedChannelEx.members :=
  leave_no_rejoin chatStateEx 0 0 (some "u") "c1" "u" "sys" groupChannelEx
    diskChannelEx rfl (by decide) rfl (by decide) (by decide)
    mergedChannelEx (by decide) rfl

theorem dm_promotion_one_way_witness :
    ((addMemberToChannel dmStateEx 0 (some "a") "d1" "c" "a" "sys").channels.find?
        (fun c => c.id == "d1") = some (promoteAndAdd "c" dmChannelEx) ∧
      (promoteAndAdd "c" dmChannelEx).type = ChannelType.group) ∧
    groupChannelEx.type = ChannelType.group :=
  ⟨dm_promotion_one_way.1 dmStateEx 0 (some "a") "d1" "c" "a" "sys" dmChannelEx
      rfl rfl (by decide),
   dm_promotion_one_way.2 chatStateEx (ChatOp.cleanup 0) groupChannelEx
      (by decide) (by decide) rfl groupChannelEx (by decide) rfl⟩
